import Mathlib

/-!
# certificate-generator-cli: the issuance engine

A shallow embedding of `lib/configuration.go`, `lib/generator.go` and
`cmd/root.go`.  Everything the Go code obtains from the outside (randomness,
the clock, the file system, the standard-library parsers) is read from an
`Env`, indexed by a tick counter that advances with every interaction, and
every effect the code performs is appended to a trace.
-/

namespace CertGen

/-! ## Configuration (`lib/configuration.go`) -/

/-- The `Certificate` struct: one node of the declarative tree. -/
inductive Certificate where
  | mk (CommonName Country State Locality Organization OrganizationUnit
        Expires : String) (SubjectAltNames : List String)
       (InstallTo FilenamePrefix : String) (Issue : List Certificate)

namespace Certificate

def CommonName : Certificate → String
  | mk cn _ _ _ _ _ _ _ _ _ _ => cn

def Country : Certificate → String
  | mk _ c _ _ _ _ _ _ _ _ _ => c

def State : Certificate → String
  | mk _ _ s _ _ _ _ _ _ _ _ => s

def Locality : Certificate → String
  | mk _ _ _ l _ _ _ _ _ _ _ => l

def Organization : Certificate → String
  | mk _ _ _ _ o _ _ _ _ _ _ => o

def OrganizationUnit : Certificate → String
  | mk _ _ _ _ _ ou _ _ _ _ _ => ou

def Expires : Certificate → String
  | mk _ _ _ _ _ _ e _ _ _ _ => e

def SubjectAltNames : Certificate → List String
  | mk _ _ _ _ _ _ _ sans _ _ _ => sans

def InstallTo : Certificate → String
  | mk _ _ _ _ _ _ _ _ dir _ _ => dir

def FilenamePrefix : Certificate → String
  | mk _ _ _ _ _ _ _ _ _ p _ => p

def Issue : Certificate → List Certificate
  | mk _ _ _ _ _ _ _ _ _ _ issue => issue

end Certificate

/-- The `Configuration` struct: the top-level `certificates` list. -/
structure Configuration where
  Certificates : List Certificate

/-! ## Values of the Go standard library used by the generator -/

/-- A non-nil Go `error`. -/
structure Error where
  msg : String
  deriving DecidableEq, Repr

/-- The Go type `rsa.PublicKey`. -/
structure RSAPublicKey where
  N : Nat
  E : Nat
  deriving DecidableEq, Repr

/-- The Go type `rsa.PrivateKey`, with its embedded public key. -/
structure RSAPrivateKey where
  PublicKey : RSAPublicKey
  D : Nat
  deriving DecidableEq, Repr

/-- The Go type `ecdsa.PublicKey`. -/
structure ECDSAPublicKey where
  X : Nat
  Y : Nat
  deriving DecidableEq, Repr

/-- The Go type `ecdsa.PrivateKey`, with its embedded public key. -/
structure ECDSAPrivateKey where
  PublicKey : ECDSAPublicKey
  D : Nat
  deriving DecidableEq, Repr

/-- A non-nil `interface{}` used as a private key: the two dynamic types the
type switches of `generator.go` know, and any other one. -/
inductive PrivateKey where
  | rsa (k : RSAPrivateKey)
  | ecdsa (k : ECDSAPrivateKey)
  | other (tag : Nat)
  deriving DecidableEq, Repr

/-- A non-nil `interface{}` returned by `publicKey`. -/
inductive PublicKey where
  | rsa (k : RSAPublicKey)
  | ecdsa (k : ECDSAPublicKey)
  deriving DecidableEq, Repr

/-- The Go type `net.IP`: a byte slice. -/
abbrev IP := List Nat

/-- The Go type `pkix.Name`, the fields of a distinguished name. -/
structure pkixName where
  Country : List String := []
  Organization : List String := []
  OrganizationalUnit : List String := []
  Locality : List String := []
  Province : List String := []
  StreetAddress : List String := []
  PostalCode : List String := []
  SerialNumber : String := ""
  CommonName : String := ""
  deriving DecidableEq, Repr

/-- The bits of `x509.KeyUsage` (`1 << iota`). -/
def KeyUsageDigitalSignature : Nat := 1
def KeyUsageContentCommitment : Nat := 2
def KeyUsageKeyEncipherment : Nat := 4
def KeyUsageDataEncipherment : Nat := 8
def KeyUsageKeyAgreement : Nat := 16
def KeyUsageCertSign : Nat := 32
def KeyUsageCRLSign : Nat := 64

/-- The first values of `x509.ExtKeyUsage` (`iota`). -/
def ExtKeyUsageAny : Nat := 0
def ExtKeyUsageServerAuth : Nat := 1
def ExtKeyUsageClientAuth : Nat := 2

/-- The fields of `x509.Certificate` that the generator sets or that keep
their zero value in the template. -/
structure x509Certificate where
  SerialNumber : Nat
  Subject : pkixName
  NotBefore : Int
  NotAfter : Int
  KeyUsage : Nat
  ExtKeyUsage : List Nat
  BasicConstraintsValid : Bool
  IsCA : Bool := false
  DNSNames : List String := []
  IPAddresses : List IP := []
  deriving DecidableEq, Repr

/-- What `x509.CreateCertificate` encodes in the DER bytes it returns: the
fields of the template, with each IP address in its four-byte form when it
has one, the issuer name taken from the parent certificate's `Subject`, the
subject's public key, and the key that made the signature. -/
structure IssuedCertificate where
  SerialNumber : Nat
  Issuer : pkixName
  Subject : pkixName
  NotBefore : Int
  NotAfter : Int
  KeyUsage : Nat
  ExtKeyUsage : List Nat
  BasicConstraintsValid : Bool
  IsCA : Bool
  DNSNames : List String
  IPAddresses : List IP
  PublicKey : Option PublicKey
  SignedWith : PrivateKey
  deriving DecidableEq, Repr

/-- The payload of a PEM block, kept symbolic. -/
inductive PemBytes where
  | pkcs1 (k : RSAPrivateKey)
  | sec1 (b : List Nat)
  | der (c : IssuedCertificate)
  deriving DecidableEq, Repr

/-- The Go type `pem.Block`. -/
structure PemBlock where
  type : String
  Bytes : PemBytes
  deriving DecidableEq, Repr

/-! ## `path.Join` -/

/-- The elements of a slash-separated path, the empty ones included. -/
def splitSlash : List Char → List (List Char)
  | [] => [[]]
  | c :: cs =>
    if c = '/' then [] :: splitSlash cs
    else
      match splitSlash cs with
      | [] => [[c]]
      | e :: es => (c :: e) :: es

/-- One turn of the loop of Go's `path.Clean`, on the stack of elements
written so far (last one first): an empty element and `.` are dropped, `..`
removes the last element when there is one that is not itself `..`, is kept
on a path that is not rooted and is dropped on a rooted one, and any other
element is appended. -/
def cleanStep (rooted : Bool) (out : List (List Char)) (e : List Char) :
    List (List Char) :=
  if e = [] then out
  else if e = ['.'] then out
  else if e = ['.', '.'] then
    match out with
    | [] => if rooted then [] else [e]
    | top :: below => if top = ['.', '.'] then e :: out else below
  else e :: out

/-- The elements (first one first) joined with slashes. -/
def joinSlash : List (List Char) → List Char
  | [] => []
  | [e] => e
  | e :: es => e ++ '/' :: joinSlash es

/-- Go's `path.Clean` on the characters of a path.  Go works on bytes; the
two bytes it looks for, the slash and the dot, are never part of a longer
UTF-8 sequence, so that working on characters gives the same result. -/
def cleanChars (p : List Char) : List Char :=
  if p = [] then ['.']
  else
    let rooted := p.head? = some '/'
    let out := ((splitSlash p).foldl (cleanStep rooted) []).reverse
    if rooted then '/' :: joinSlash out
    else if out = [] then ['.'] else joinSlash out

/-- Go's `path.Clean`. -/
def pathClean (p : String) : String := String.mk (cleanChars p.data)

/-- Go's `path.Join` of two elements: empty elements are ignored, the others
are joined with a slash and the result is cleaned; all empty gives `""`. -/
def pathJoin (a b : String) : String :=
  if a = "" then (if b = "" then "" else pathClean b)
  else if b = "" then pathClean a
  else pathClean (a ++ "/" ++ b)

/-- The table of Go's own test of `path.Clean`: a path and its cleaned form. -/
def cleanTests : List (String × String) :=
  [("abc", "abc"), ("abc/def", "abc/def"), ("a/b/c", "a/b/c"), (".", "."), ("..", ".."),
   ("../..", "../.."), ("../../abc", "../../abc"), ("/abc", "/abc"), ("/", "/"), ("", "."),
   ("abc/", "abc"), ("abc/def/", "abc/def"), ("a/b/c/", "a/b/c"), ("./", "."), ("../", ".."),
   ("../../", "../.."), ("/abc/", "/abc"), ("abc//def//ghi", "abc/def/ghi"), ("//abc", "/abc"),
   ("///abc", "/abc"), ("//abc//", "/abc"), ("abc//", "abc"), ("abc/./def", "abc/def"),
   ("/./abc/def", "/abc/def"), ("abc/.", "abc"), ("abc/def/ghi/../jkl", "abc/def/jkl"),
   ("abc/def/../ghi/../jkl", "abc/jkl"), ("abc/def/..", "abc"), ("abc/def/../..", "."),
   ("/abc/def/../..", "/"), ("abc/def/../../..", ".."), ("/abc/def/../../..", "/"),
   ("abc/def/../../../ghi/jkl/../../../mno", "../../mno"), ("abc/./../def", "def"),
   ("abc//./../def", "def"), ("abc/../../././../def", "../../def")]

/-- Unix `filepath.Dir`: everything up to the last slash, cleaned. -/
def dirChars : List Char → List Char
  | [] => []
  | c :: cs =>
    if cs.contains '/' then c :: dirChars cs
    else if c = '/' then [c] else []

/-- Unix `filepath.Dir`. -/
def filepathDir (p : String) : String := String.mk (cleanChars (dirChars p.data))

/-! ## The environment and the trace -/

/-- Everything the generator reads from outside.  The first argument of an
interaction is the tick at which it happens. -/
structure Env where
  /-- The call `rsa.GenerateKey(rand.Reader, bits)`. -/
  rsaGenerateKey : Nat → Nat → Except Error RSAPrivateKey
  /-- The call `os.MkdirAll(dir, os.ModePerm)`. -/
  mkdirAll : Nat → String → Option Error
  /-- The call `os.OpenFile(name, O_WRONLY|O_CREATE|O_TRUNC, perm)`; `os.Create` is the
  same call with `O_RDWR` and permission 0666. -/
  openFile : Nat → String → Nat → Option Error
  /-- The call `pem.Encode` to the open file. -/
  pemEncode : Nat → String → PemBlock → Option Error
  /-- The call `Close` of the open file. -/
  close : Nat → String → Option Error
  /-- The call `time.ParseDuration`, in nanoseconds. -/
  parseDuration : String → Except Error Int
  /-- The call `time.Now()`, in nanoseconds. -/
  now : Nat → Int
  /-- The call `rand.Int(rand.Reader, max)`. -/
  randInt : Nat → Nat → Except Error Nat
  /-- The call `net.ParseIP`; `none` is the nil slice. -/
  parseIP : String → Option IP
  /-- The error of `x509.CreateCertificate(rand.Reader, template, parent, pub,
  priv)`, if it fails. -/
  createCertificateError :
    Nat → x509Certificate → x509Certificate → Option PublicKey → PrivateKey → Option Error
  /-- The call `x509.MarshalECPrivateKey`. -/
  marshalECPrivateKey : ECDSAPrivateKey → Except Error (List Nat)
  /-- The error of `os.Stat`, if it fails. -/
  stat : Nat → String → Option Error
  /-- The call `ioutil.ReadFile`. -/
  readFile : Nat → String → Except Error String
  /-- The call `yaml.Unmarshal` into a `Configuration`. -/
  yamlUnmarshal : String → Except Error Configuration

/-- An effect of the generator. -/
inductive Action where
  /-- An invocation of `issueCertificate` with its three arguments. -/
  | call (config : Certificate) (caCert : Option x509Certificate) (caKey : Option PrivateKey)
  /-- A line printed to standard output. -/
  | stdout (s : String)
  /-- A line printed to standard error. -/
  | stderr (s : String)
  /-- Directories created by `os.MkdirAll`. -/
  | mkdirAll (dir : String)
  /-- A file created or truncated, with the permission asked for. -/
  | openFile (name : String) (perm : Nat)
  /-- A PEM block written to an open file. -/
  | pemEncode (name : String) (b : PemBlock)
  /-- An open file closed. -/
  | close (name : String)
  /-- A certificate created and signed by `x509.CreateCertificate`. -/
  | createCertificate (template parent : x509Certificate) (pub : Option PublicKey)
      (priv : PrivateKey) (cert : IssuedCertificate)

/-- The state threaded through a run. -/
structure World where
  tick : Nat
  trace : List Action

/-- An interaction that left an effect. -/
def World.log (w : World) (a : Action) : World :=
  { tick := w.tick + 1, trace := w.trace ++ [a] }

/-- An interaction that left no effect. -/
def World.skip (w : World) : World :=
  { w with tick := w.tick + 1 }

/-- How a Go function that returns `error` ends: it returns (`none` is the
nil error), it ends the process with an exit status, or it panics. -/
inductive Outcome where
  | returned (err : Option Error)
  | exited (code : Nat)
  | panicked
  deriving DecidableEq, Repr

/-! ## `LoadConfiguration` (`lib/configuration.go`) -/

/-- The function `LoadConfiguration`. -/
def LoadConfiguration (env : Env) (filename : String) (w : World) :
    Except Error Configuration × World :=
  match env.stat w.tick filename with
  | some err => (.error err, w.skip)
  | none =>
    let w := w.skip
    let w := w.log (.stdout ("Reading configuration from " ++ filename ++ "\n"))
    -- Read configuration file
    match env.readFile w.tick filename with
    | .error err => (.error err, w.skip)
    | .ok data =>
      let w := w.skip
      match env.yamlUnmarshal data with
      | .error err => (.error err, w)
      | .ok config => (.ok config, w)

/-! ## `lib/generator.go` -/

/-- The function `publicKey`: `nil` (`none`) for any other dynamic type. -/
def publicKey : PrivateKey → Option PublicKey
  | .rsa k => some (.rsa k.PublicKey)
  | .ecdsa k => some (.ecdsa k.PublicKey)
  | .other _ => none

/-- How `pemBlockForKey` ends. -/
inductive PemBlockResult where
  | block (b : Option PemBlock)
  | exit (stderr : String) (code : Nat)
  deriving DecidableEq, Repr

/-- The function `pemBlockForKey`. -/
def pemBlockForKey (env : Env) : PrivateKey → PemBlockResult
  | .rsa k => .block (some { type := "RSA PRIVATE KEY", Bytes := .pkcs1 k })
  | .ecdsa k =>
    match env.marshalECPrivateKey k with
    | .error err => .exit ("Unable to marshal ECDSA private key: " ++ err.msg) 2
    | .ok b => .block (some { type := "EC PRIVATE KEY", Bytes := .sec1 b })
  | .other _ => .block none

/-- The function `savePrivateKey`. -/
def savePrivateKey (env : Env) (key : PrivateKey) (filename : String) (w : World) :
    Outcome × World :=
  -- Ensure directory exists
  match env.mkdirAll w.tick (filepathDir filename) with
  | some err => (.returned (some err), w.skip)
  | none =>
    let w := w.log (.mkdirAll (filepathDir filename))
    match env.openFile w.tick filename 0o600 with
    | some err => (.returned (some err), w.skip)
    | none =>
      let w := w.log (.openFile filename 0o600)
      match pemBlockForKey env key with
      | .exit msg code => (.exited code, w.log (.stderr msg))
      | .block none => (.panicked, w)
      | .block (some b) =>
        match env.pemEncode w.tick filename b with
        | some err => (.returned (some err), w.skip)
        | none =>
          let w := w.log (.pemEncode filename b)
          (.returned (env.close w.tick filename), w.log (.close filename))

/-- The function `saveCertificate`. -/
def saveCertificate (env : Env) (derBytes : IssuedCertificate) (filename : String)
    (w : World) : Outcome × World :=
  -- Ensure directory exists
  match env.mkdirAll w.tick (filepathDir filename) with
  | some err => (.returned (some err), w.skip)
  | none =>
    let w := w.log (.mkdirAll (filepathDir filename))
    match env.openFile w.tick filename 0o666 with
    | some err => (.returned (some err), w.skip)
    | none =>
      let w := w.log (.openFile filename 0o666)
      match env.pemEncode w.tick filename { type := "CERTIFICATE", Bytes := .der derBytes } with
      | some err => (.returned (some err), w.skip)
      | none =>
        let w := w.log (.pemEncode filename { type := "CERTIFICATE", Bytes := .der derBytes })
        (.returned (env.close w.tick filename), w.log (.close filename))

/-- The exclusive upper bound computed by `randomSerial`:
`max.Exp(2, 130, nil).Sub(max, 1)`. -/
def randomSerial.max : Nat := 2 ^ 130 - 1

/-- The function `randomSerial`. -/
def randomSerial (env : Env) (w : World) : Except Error Nat × World :=
  (env.randInt w.tick randomSerial.max, w.skip)

/-- The loop of `issueCertificate` over `config.SubjectAltNames`. -/
def addSubjectAltNames (env : Env) : List String → x509Certificate → x509Certificate
  | [], template => template
  | h :: hs, template =>
    match env.parseIP h with
    | some ip =>
      addSubjectAltNames env hs { template with IPAddresses := template.IPAddresses ++ [ip] }
    | none =>
      addSubjectAltNames env hs { template with DNSNames := template.DNSNames ++ [h] }

/-- The template literal of `issueCertificate` followed by the loop over the
subject alternative names. -/
def issueCertificate.template (env : Env) (config : Certificate) (serial : Nat)
    (notBefore notAfter : Int) : x509Certificate :=
  addSubjectAltNames env config.SubjectAltNames
    { SerialNumber := serial
      Subject :=
        { CommonName := config.CommonName
          Country := [config.Country]
          Organization := [config.Organization]
          OrganizationalUnit := [config.OrganizationUnit] }
      NotBefore := notBefore
      NotAfter := notAfter
      KeyUsage := KeyUsageKeyEncipherment ||| KeyUsageDigitalSignature
      ExtKeyUsage := [ExtKeyUsageServerAuth]
      BasicConstraintsValid := true }

/-- Go's `IP.To4`: a four-byte address as it is, a sixteen-byte address that
maps an IPv4 address as its last four bytes, and `none` (nil) otherwise. -/
def ipTo4 (ip : IP) : Option IP :=
  if ip.length = 4 then some ip
  else if ip.length = 16 ∧ ip.take 10 = List.replicate 10 0 ∧ ip.drop 10 = 255 :: 255 :: ip.drop 12
  then some (ip.drop 12)
  else none

/-- The bytes `x509.CreateCertificate` writes for an IP address of the
template: the four-byte form when there is one, the address as it is
otherwise. -/
def sanIP (ip : IP) : IP :=
  match ipTo4 ip with
  | some ip4 => ip4
  | none => ip

/-- The certificate `x509.CreateCertificate` returns when it succeeds. -/
def x509CreateCertificate (template parent : x509Certificate) (pub : Option PublicKey)
    (priv : PrivateKey) : IssuedCertificate :=
  { SerialNumber := template.SerialNumber
    Issuer := parent.Subject
    Subject := template.Subject
    NotBefore := template.NotBefore
    NotAfter := template.NotAfter
    KeyUsage := template.KeyUsage
    ExtKeyUsage := template.ExtKeyUsage
    BasicConstraintsValid := template.BasicConstraintsValid
    IsCA := template.IsCA
    DNSNames := template.DNSNames
    IPAddresses := template.IPAddresses.map sanIP
    PublicKey := pub
    SignedWith := priv }

/-- The path of a node's private key file. -/
def keyFilename (config : Certificate) : String :=
  pathJoin config.InstallTo (config.FilenamePrefix ++ ".key")

/-- The path of a node's certificate file. -/
def certFilename (config : Certificate) : String :=
  pathJoin config.InstallTo (config.FilenamePrefix ++ ".crt")

/-- What `issueCertificate` does for the node itself, up to its loop over
`config.Issue`: either it ends there, or it reaches the loop holding its
template and its private key. -/
def issueCertificate.node (env : Env) (config : Certificate)
    (caCert : Option x509Certificate) (caKey : Option PrivateKey) (w : World) :
    (Outcome × World) ⊕ (x509Certificate × RSAPrivateKey × World) :=
  let w := w.log (.call config caCert caKey)
  let w := w.log (.stdout ("Generating certificate for: " ++ config.CommonName ++ "\n"))
  -- Create private key
  match env.rsaGenerateKey w.tick 4096 with
  | .error _ => .inl (.returned none, w.skip)
  | .ok privateKey =>
    let w := w.skip
    match savePrivateKey env (.rsa privateKey) (keyFilename config) w with
    | (.returned (some err), w) => .inl (.returned (some err), w)
    | (.exited code, w) => .inl (.exited code, w)
    | (.panicked, w) => .inl (.panicked, w)
    | (.returned none, w) =>
      match env.parseDuration config.Expires with
      | .error err => .inl (.returned (some err), w)
      | .ok expires =>
        let notBefore := env.now w.tick
        let w := w.skip
        let notAfter := notBefore + expires
        match randomSerial env w with
        | (.error err, w) => .inl (.returned (some err), w)
        | (.ok serial, w) =>
          let template := issueCertificate.template env config serial notBefore notAfter
          -- If no CA is provided, then self sign
          let caCert := match caCert with
            | none => template
            | some c => c
          let caKey := match caKey with
            | none => PrivateKey.rsa privateKey
            | some k => k
          let pub := publicKey (.rsa privateKey)
          match env.createCertificateError w.tick template caCert pub caKey with
          | some err =>
            .inl (.exited 1, w.log (.stderr ("Failed to create certificate: " ++ err.msg)))
          | none =>
            let cert := x509CreateCertificate template caCert pub caKey
            let w := w.log (.createCertificate template caCert pub caKey cert)
            match saveCertificate env cert (certFilename config) w with
            | (.returned none, w) => .inr (template, privateKey, w)
            | r => .inl r

mutual
/-- The function `issueCertificate`. -/
def issueCertificate (env : Env) :
    Certificate → Option x509Certificate → Option PrivateKey → World → Outcome × World
  | .mk cn c st l o ou e sans dir p issue, caCert, caKey, w =>
    match issueCertificate.node env (.mk cn c st l o ou e sans dir p issue) caCert caKey w with
    | .inl r => r
    | .inr (template, privateKey, w) =>
      issueCertificate.loop env issue template privateKey w
/-- The loop of `issueCertificate` over `config.Issue`. -/
def issueCertificate.loop (env : Env) :
    List Certificate → x509Certificate → RSAPrivateKey → World → Outcome × World
  | [], _, _, w => (.returned none, w)
  | certConfig :: rest, template, privateKey, w =>
    match issueCertificate env certConfig (some template) (some (.rsa privateKey)) w with
    | (.returned (some _), w) => (.returned none, w)
    | (.returned none, w) => issueCertificate.loop env rest template privateKey w
    | (.exited code, w) => (.exited code, w)
    | (.panicked, w) => (.panicked, w)
end

/-- The loop of `GenerateCertificates` over `config.Certificates`. -/
def GenerateCertificates.loop (env : Env) : List Certificate → World → Outcome × World
  | [], w => (.returned none, w)
  | certConfig :: rest, w =>
    match issueCertificate env certConfig none none w with
    | (.returned (some _), w) => (.returned none, w)
    | (.returned none, w) => GenerateCertificates.loop env rest w
    | (.exited code, w) => (.exited code, w)
    | (.panicked, w) => (.panicked, w)

/-- The state in which the loop of `issueCertificate` stands once it has gone
through the children `done`: each was issued with `template` and `privateKey`
as issuer and its issuance returned nil; `none` when the issuance of one of
them did not return nil, which is where the loop ends. -/
def childrenDone (env : Env) :
    List Certificate → x509Certificate → RSAPrivateKey → World → Option World
  | [], _, _, w => some w
  | certConfig :: rest, template, privateKey, w =>
    match issueCertificate env certConfig (some template) (some (.rsa privateKey)) w with
    | (.returned none, w) => childrenDone env rest template privateKey w
    | _ => none

/-- The state in which the loop of `GenerateCertificates` stands once it has
gone through the top-level nodes `done`: each was issued with no issuer and
its issuance returned nil; `none` when the issuance of one of them did not
return nil, which is where the loop ends. -/
def rootsDone (env : Env) : List Certificate → World → Option World
  | [], w => some w
  | certConfig :: rest, w =>
    match issueCertificate env certConfig none none w with
    | (.returned none, w) => rootsDone env rest w
    | _ => none

/-- The function `GenerateCertificates`. -/
def GenerateCertificates (env : Env) (config : Configuration) (w : World) : Outcome × World :=
  GenerateCertificates.loop env config.Certificates w

/-! ## `cmd/root.go` -/

/-- The function `rootCmd.RunE`, with the value of the `--config` flag. -/
def RunE (env : Env) (cfgFile : String) (w : World) : Outcome × World :=
  if cfgFile = "" then
    (.returned (some ⟨"Config file name is not valid"⟩), w)
  else
    match LoadConfiguration env cfgFile w with
    | (.error err, w) => (.returned (some err), w)
    | (.ok config, w) =>
      match GenerateCertificates env config w with
      | (.returned (some err), w) => (.returned (some err), w)
      | (.returned none, w) =>
        -- No errors
        (.returned none, w)
      | r => r

/-- The function `Execute`: the exit status of the process.  An error returned by the
command is printed and the status is 1; with no error the process ends with
status 0; a Go panic ends it with status 2. -/
def Execute (env : Env) (cfgFile : String) (w : World) : Nat × World :=
  match RunE env cfgFile w with
  | (.returned (some err), w) => (1, w.log (.stdout (err.msg ++ "\n")))
  | (.returned none, w) => (0, w)
  | (.exited code, w) => (code, w)
  | (.panicked, w) => (2, w)

/-! ## Traversal order and projections of the trace -/

mutual
/-- The nodes of a tree in depth-first pre-order, children in declared order. -/
def preorder : Certificate → List Certificate
  | .mk cn c st l o ou e sans dir p issue =>
    .mk cn c st l o ou e sans dir p issue :: preorderList issue
/-- The nodes of a forest in depth-first pre-order, trees in declared order. -/
def preorderList : List Certificate → List Certificate
  | [] => []
  | c :: cs => preorder c ++ preorderList cs
end

/-- The `pkix.Name` that `issueCertificate` builds for a node. -/
def subjectOf (config : Certificate) : pkixName :=
  { CommonName := config.CommonName
    Country := [config.Country]
    Organization := [config.Organization]
    OrganizationalUnit := [config.OrganizationUnit] }

mutual
/-- The subject and issuer names expected of the certificates of a tree, in
pre-order, when the certificate of the root is issued by `issuer`. -/
def chainNames : pkixName → Certificate → List (pkixName × pkixName)
  | issuer, .mk cn c st l o ou e sans dir p issue =>
    (subjectOf (.mk cn c st l o ou e sans dir p issue), issuer) ::
      chainNamesList (subjectOf (.mk cn c st l o ou e sans dir p issue)) issue
/-- The subject and issuer names expected of the certificates of a list of
sibling trees, all issued by `issuer`. -/
def chainNamesList : pkixName → List Certificate → List (pkixName × pkixName)
  | _, [] => []
  | issuer, c :: cs => chainNames issuer c ++ chainNamesList issuer cs
end

/-- The milestones of a run. -/
inductive Mark where
  /-- Entry into `issueCertificate` for a node. -/
  | issue (config : Certificate)
  /-- A private key has been written to a file. -/
  | keyWritten (name : String)
  /-- A certificate with this subject has been created. -/
  | created (subject : pkixName)
  /-- A certificate has been written to a file. -/
  | certWritten (name : String)

/-- The node a milestone says is being issued. -/
def Mark.node : Mark → Option Certificate
  | .issue config => some config
  | _ => none

/-- The milestone an effect stands for, if any. -/
def Action.mark : Action → Option Mark
  | .call config _ _ => some (.issue config)
  | .pemEncode name { type := _, Bytes := .der _ } => some (.certWritten name)
  | .pemEncode name { type := _, Bytes := _ } => some (.keyWritten name)
  | .createCertificate _ _ _ _ cert => some (.created cert.Subject)
  | _ => none

/-- The milestones of a trace, in order. -/
def marks (trace : List Action) : List Mark := trace.filterMap Action.mark

/-- The milestones of a node issued without failure. -/
def nodeMarks (config : Certificate) : List Mark :=
  [.issue config, .keyWritten (keyFilename config), .created (subjectOf config),
   .certWritten (certFilename config)]

/-- The subject and issuer names of a certificate created by an effect. -/
def Action.names : Action → Option (pkixName × pkixName)
  | .createCertificate _ _ _ _ cert => some (cert.Subject, cert.Issuer)
  | _ => none

/-- The subject and issuer names of the certificates created, in order. -/
def issuedNames (trace : List Action) : List (pkixName × pkixName) :=
  trace.filterMap Action.names

/-- The name of the file an effect wrote a PEM block to. -/
def Action.written : Action → Option String
  | .pemEncode name _ => some name
  | _ => none

/-- The names of the files a PEM block was written to, in order. -/
def writtenPaths (trace : List Action) : List String :=
  trace.filterMap Action.written

/-- The common name of the node an invocation of `issueCertificate` is for. -/
def Action.called : Action → Option String
  | .call config _ _ => some config.CommonName
  | _ => none

/-- The common names of the nodes `issueCertificate` was invoked for, in order. -/
def calledNames (trace : List Action) : List String :=
  trace.filterMap Action.called

/-- The node of an invocation of `issueCertificate` with nil issuer
certificate and nil issuer key. -/
def Action.rootCall : Action → Option Certificate
  | .call config none none => some config
  | _ => none

/-- The nodes `issueCertificate` was invoked for with nil issuer certificate
and nil issuer key, in order. -/
def rootCalls (trace : List Action) : List Certificate :=
  trace.filterMap Action.rootCall

/-- The name of the issuer of a node's certificate: the subject of the issuer
certificate passed in, or the node's own subject when none is. -/
def issuerOf (caCert : Option x509Certificate) (config : Certificate) : pkixName :=
  match caCert with
  | none => subjectOf config
  | some c => c.Subject

/-- Every call of `x509.CreateCertificate` among the effects `l` of a node
invoked with `caCert` and `caKey` was made with a template that carries the
node's subject, with the issuer certificate given or else that template, with
the public key of one RSA key, with the issuer key given or else that RSA key,
and returned the certificate these four determine. -/
def SignedAsResolved (config : Certificate) (caCert : Option x509Certificate)
    (caKey : Option PrivateKey) (l : List Action) : Prop :=
  ∀ template parent pub priv cert, Action.createCertificate template parent pub priv cert ∈ l →
    template.Subject = subjectOf config ∧
    parent = (match caCert with
      | none => template
      | some c => c) ∧
    (∃ privateKey : RSAPrivateKey, pub = some (.rsa privateKey.PublicKey) ∧
      priv = (match caKey with
        | none => .rsa privateKey
        | some k => k)) ∧
    cert = x509CreateCertificate template parent pub priv

/-- The state in which the part of `issueCertificate` before its loop ends. -/
def issueCertificate.node.world :
    (Outcome × World) ⊕ (x509Certificate × RSAPrivateKey × World) → World
  | .inl (_, w) => w
  | .inr (_, _, w) => w

/-- The effects of a successful `savePrivateKey` of an RSA key. -/
def keyFileActions (k : RSAPrivateKey) (f : String) : List Action :=
  [.mkdirAll (filepathDir f), .openFile f 0o600,
   .pemEncode f { type := "RSA PRIVATE KEY", Bytes := .pkcs1 k }, .close f]

/-- The effects of a successful `saveCertificate`. -/
def certFileActions (c : IssuedCertificate) (f : String) : List Action :=
  [.mkdirAll (filepathDir f), .openFile f 0o666,
   .pemEncode f { type := "CERTIFICATE", Bytes := .der c }, .close f]

/-- Nothing the generator asks of the environment fails, the parse of the
`expires` strings apart. -/
structure Env.NeverFails (env : Env) : Prop where
  rsaGenerateKey : ∀ t, ∃ k, env.rsaGenerateKey t 4096 = .ok k
  mkdirAll : ∀ t dir, env.mkdirAll t dir = none
  openFile : ∀ t name perm, env.openFile t name perm = none
  pemEncode : ∀ t name b, env.pemEncode t name b = none
  close : ∀ t name, env.close t name = none
  randInt : ∀ t, ∃ s, env.randInt t randomSerial.max = .ok s
  createCertificate : ∀ t template parent pub priv,
    env.createCertificateError t template parent pub priv = none

/-! ## The scenario of the specification and concrete environments -/

/-- The child of the end-to-end scenario. -/
def leafNode : Certificate :=
  .mk "leaf.example.com" "" "" "" "" "" "720h" ["leaf.example.com", "10.0.0.5"] "./out" "leaf" []

/-- The root of the end-to-end scenario. -/
def rootNode : Certificate :=
  .mk "Root CA" "" "" "" "" "" "87600h" [] "./out" "root" [leafNode]

/-- The configuration of the end-to-end scenario. -/
def scenario : Configuration := { Certificates := [rootNode] }

/-- A node whose `expires` is not a duration. -/
def badNode : Certificate :=
  .mk "bad.example.com" "" "" "" "" "" "not-a-duration" [] "./out" "bad" []

/-- A second child, issued like `leafNode`. -/
def leafTwo : Certificate :=
  .mk "two.example.com" "" "" "" "" "" "720h" [] "./out" "two" []

/-- A root with two children. -/
def rootOfTwo : Certificate :=
  .mk "Root CA" "" "" "" "" "" "87600h" [] "./out" "root" [leafNode, leafTwo]

/-- A root whose first child is `badNode` and whose second is `leafNode`. -/
def rootOfBadAndLeaf : Certificate :=
  .mk "Root CA" "" "" "" "" "" "87600h" [] "./out" "root" [badNode, leafNode]

/-- A root whose only child is `badNode`. -/
def rootOfBad : Certificate :=
  .mk "Root CA" "" "" "" "" "" "87600h" [] "./out" "root" [badNode]

/-- The state before a run. -/
def World.init : World := { tick := 0, trace := [] }

/-- An environment in which nothing fails: keys, times and serials are derived
from the tick; `time.ParseDuration` and `net.ParseIP` are tabulated on the
strings of the scenario, and reject every other string. -/
def envOK : Env where
  rsaGenerateKey t _ := .ok { PublicKey := { N := t, E := 65537 }, D := t }
  mkdirAll _ _ := none
  openFile _ _ _ := none
  pemEncode _ _ _ := none
  close _ _ := none
  parseDuration s :=
    if s = "87600h" then .ok 315360000000000000
    else if s = "720h" then .ok 2592000000000000
    else .error ⟨"time: invalid duration " ++ s⟩
  now t := t
  randInt t max := if max = 0 then .error ⟨"max is not positive"⟩ else .ok (t % max)
  parseIP s :=
    if s = "10.0.0.5" then some [0, 0, 0, 0, 0, 0, 0, 0, 0, 0, 255, 255, 10, 0, 0, 5] else none
  createCertificateError _ _ _ _ _ := none
  marshalECPrivateKey _ := .ok []
  stat _ _ := none
  readFile _ _ := .ok ""
  yamlUnmarshal _ := .ok scenario

/-- The environment `envOK` with a source of randomness that fails when a key
is generated. -/
def envNoKey : Env :=
  { envOK with rsaGenerateKey := fun _ _ => .error ⟨"entropy source unavailable"⟩ }

/-- The environment `envOK` with a configuration file that holds `badNode`
alone. -/
def envBadConfig : Env :=
  { envOK with yamlUnmarshal := fun _ => .ok { Certificates := [badNode] } }

/-! ## Lemmas -/

theorem savePrivateKey_rsa_ok (env : Env) (k : RSAPrivateKey) (f : String) (w w1 : World)
    (h : savePrivateKey env (.rsa k) f w = (.returned none, w1)) :
    w1.trace = w.trace ++ keyFileActions k f ∧ w1.tick = w.tick + 4 := by
  unfold savePrivateKey at h
  simp only [pemBlockForKey] at h
  split at h
  · simp at h
  · split at h
    · simp at h
    · split at h
      · simp at h
      · simp only [Prod.mk.injEq, Outcome.returned.injEq] at h
        obtain ⟨_, rfl⟩ := h
        simp [World.log, keyFileActions]

theorem saveCertificate_ok (env : Env) (c : IssuedCertificate) (f : String) (w w1 : World)
    (h : saveCertificate env c f w = (.returned none, w1)) :
    w1.trace = w.trace ++ certFileActions c f ∧ w1.tick = w.tick + 4 := by
  unfold saveCertificate at h
  dsimp only at h
  split at h
  · simp at h
  · split at h
    · simp at h
    · split at h
      · simp at h
      · simp only [Prod.mk.injEq, Outcome.returned.injEq] at h
        obtain ⟨_, rfl⟩ := h
        simp [World.log, certFileActions]

theorem addSubjectAltNames_spec (env : Env) (sans : List String) (t : x509Certificate) :
    addSubjectAltNames env sans t =
      { t with
        IPAddresses := t.IPAddresses ++ sans.filterMap env.parseIP
        DNSNames := t.DNSNames ++ sans.filter (fun h => (env.parseIP h).isNone) } := by
  induction sans generalizing t with
  | nil => simp [addSubjectAltNames]
  | cons h hs ih =>
    unfold addSubjectAltNames
    cases hp : env.parseIP h <;> simp [ih, hp]

theorem template_SerialNumber (env : Env) (config : Certificate) (serial : Nat)
    (notBefore notAfter : Int) :
    (issueCertificate.template env config serial notBefore notAfter).SerialNumber = serial := by
  simp [issueCertificate.template, addSubjectAltNames_spec]

theorem issueNode_inr (env : Env) (config : Certificate)
    (caCert : Option x509Certificate) (caKey : Option PrivateKey) (w w1 : World)
    (template : x509Certificate) (privateKey : RSAPrivateKey)
    (h : issueCertificate.node env config caCert caKey w = .inr (template, privateKey, w1)) :
    ∃ expires,
      env.rsaGenerateKey (w.tick + 2) 4096 = .ok privateKey ∧
      env.parseDuration config.Expires = .ok expires ∧
      env.randInt (w.tick + 8) randomSerial.max = .ok template.SerialNumber ∧
      template = issueCertificate.template env config template.SerialNumber
        (env.now (w.tick + 7)) (env.now (w.tick + 7) + expires) ∧
      w1.trace = w.trace ++
        [.call config caCert caKey,
         .stdout ("Generating certificate for: " ++ config.CommonName ++ "\n")] ++
        keyFileActions privateKey (keyFilename config) ++
        [.createCertificate template (caCert.getD template)
          (some (.rsa privateKey.PublicKey)) (caKey.getD (.rsa privateKey))
          (x509CreateCertificate template (caCert.getD template)
            (some (.rsa privateKey.PublicKey)) (caKey.getD (.rsa privateKey)))] ++
        certFileActions (x509CreateCertificate template (caCert.getD template)
            (some (.rsa privateKey.PublicKey)) (caKey.getD (.rsa privateKey)))
          (certFilename config) := by
  unfold issueCertificate.node at h
  dsimp only at h
  split at h
  · simp at h
  · rename_i k hk
    split at h
    · simp at h
    · simp at h
    · simp at h
    · rename_i w2 hsave
      obtain ⟨htr, htk⟩ := savePrivateKey_rsa_ok _ _ _ _ _ hsave
      split at h
      · simp at h
      · rename_i expires hexp
        split at h
        · simp at h
        · rename_i serial w3 hser
          split at h
          · simp at h
          · rename_i hcc
            split at h
            · rename_i w4 hcert
              obtain ⟨htr4, htk4⟩ := saveCertificate_ok _ _ _ _ _ hcert
              simp only [Sum.inr.injEq, Prod.mk.injEq] at h
              obtain ⟨rfl, rfl, rfl⟩ := h
              simp only [randomSerial, Prod.mk.injEq] at hser
              obtain ⟨hser, rfl⟩ := hser
              simp only [World.log, World.skip] at *
              refine ⟨expires, ?_, hexp, ?_, ?_, ?_⟩
              · rw [← hk]
              · rw [template_SerialNumber, ← hser, htk]
              · rw [template_SerialNumber, htk]
              · rw [htr4, htr]
                cases caCert <;> cases caKey <;> simp [publicKey]
            · simp at h

theorem savePrivateKey_rsa_neverFails (env : Env) (nf : env.NeverFails) (k : RSAPrivateKey)
    (f : String) (w : World) :
    ∃ w1, savePrivateKey env (.rsa k) f w = (.returned none, w1) := by
  simp [savePrivateKey, pemBlockForKey, nf.mkdirAll, nf.openFile, nf.pemEncode, nf.close]

theorem saveCertificate_neverFails (env : Env) (nf : env.NeverFails) (c : IssuedCertificate)
    (f : String) (w : World) :
    ∃ w1, saveCertificate env c f w = (.returned none, w1) := by
  simp [saveCertificate, nf.mkdirAll, nf.openFile, nf.pemEncode, nf.close]

theorem issueNode_neverFails (env : Env) (nf : env.NeverFails)
    (config : Certificate) (expires : Int)
    (hexp : env.parseDuration config.Expires = .ok expires)
    (caCert : Option x509Certificate) (caKey : Option PrivateKey) (w : World) :
    ∃ template privateKey w1,
      issueCertificate.node env config caCert caKey w = .inr (template, privateKey, w1) := by
  unfold issueCertificate.node
  dsimp only
  obtain ⟨k, hk⟩ := nf.rsaGenerateKey ((w.log (.call config caCert caKey)).log
    (.stdout ("Generating certificate for: " ++ config.CommonName ++ "\n"))).tick
  rw [hk]
  dsimp only
  obtain ⟨w2, hw2⟩ := savePrivateKey_rsa_neverFails env nf k (keyFilename config)
    ((w.log (.call config caCert caKey)).log
      (.stdout ("Generating certificate for: " ++ config.CommonName ++ "\n"))).skip
  rw [hw2]
  dsimp only
  rw [hexp]
  dsimp only [randomSerial]
  obtain ⟨s, hs⟩ := nf.randInt w2.skip.tick
  rw [hs]
  dsimp only
  rw [nf.createCertificate]
  dsimp only
  split
  · exact ⟨_, _, _, rfl⟩
  · rename_i r hr
    obtain ⟨w3, hw3⟩ := saveCertificate_neverFails env nf _ _ _
    exact absurd hw3 (hr w3)

theorem issueCertificate_eq (env : Env) (config : Certificate)
    (caCert : Option x509Certificate) (caKey : Option PrivateKey) (w : World) :
    issueCertificate env config caCert caKey w =
      match issueCertificate.node env config caCert caKey w with
      | .inl r => r
      | .inr (template, privateKey, w) =>
        issueCertificate.loop env config.Issue template privateKey w := by
  cases config; simp [issueCertificate, Certificate.Issue]

theorem template_Subject (env : Env) (config : Certificate) (serial : Nat)
    (notBefore notAfter : Int) :
    (issueCertificate.template env config serial notBefore notAfter).Subject = subjectOf config := by
  simp [issueCertificate.template, addSubjectAltNames_spec, subjectOf]

theorem issueNode_marks (env : Env) (config : Certificate)
    (caCert : Option x509Certificate) (caKey : Option PrivateKey) (w w1 : World)
    (template : x509Certificate) (privateKey : RSAPrivateKey)
    (h : issueCertificate.node env config caCert caKey w = .inr (template, privateKey, w1)) :
    marks w1.trace = marks w.trace ++ nodeMarks config := by
  obtain ⟨expires, -, -, -, ht, htr⟩ := issueNode_inr _ _ _ _ _ _ _ _ h
  rw [htr, ht]
  simp [marks, keyFileActions, certFileActions, Action.mark, nodeMarks, x509CreateCertificate,
    template_Subject]

mutual
theorem issueCertificate_neverFails (env : Env) (nf : env.NeverFails) :
    ∀ (config : Certificate) (caCert : Option x509Certificate) (caKey : Option PrivateKey)
      (w : World),
      (∀ n ∈ preorder config, ∃ d, env.parseDuration n.Expires = .ok d) →
      ∃ w1, issueCertificate env config caCert caKey w = (.returned none, w1) ∧
        marks w1.trace = marks w.trace ++ (preorder config).flatMap nodeMarks
  | .mk cn c st l o ou e sans dir p issue, caCert, caKey, w, hp => by
    obtain ⟨d, hd⟩ := hp (.mk cn c st l o ou e sans dir p issue) (by simp [preorder])
    obtain ⟨template, privateKey, w1, h1⟩ :=
      issueNode_neverFails env nf _ d hd caCert caKey w
    obtain ⟨w2, h2, hm⟩ := issueLoop_neverFails env nf issue template privateKey w1
      (fun n hn => hp n (by simp [preorder, hn]))
    refine ⟨w2, ?_, ?_⟩
    · rw [issueCertificate, h1]; exact h2
    · rw [hm, issueNode_marks _ _ _ _ _ _ _ _ h1]
      simp [preorder]
theorem issueLoop_neverFails (env : Env) (nf : env.NeverFails) :
    ∀ (issue : List Certificate) (template : x509Certificate) (privateKey : RSAPrivateKey)
      (w : World),
      (∀ n ∈ preorderList issue, ∃ d, env.parseDuration n.Expires = .ok d) →
      ∃ w1, issueCertificate.loop env issue template privateKey w = (.returned none, w1) ∧
        marks w1.trace = marks w.trace ++ (preorderList issue).flatMap nodeMarks
  | [], _, _, w, _ => ⟨w, by simp [issueCertificate.loop], by simp [preorderList]⟩
  | certConfig :: rest, template, privateKey, w, hp => by
    obtain ⟨w1, h1, hm1⟩ := issueCertificate_neverFails env nf certConfig (some template)
      (some (.rsa privateKey)) w (fun n hn => hp n (by simp [preorderList, hn]))
    obtain ⟨w2, h2, hm2⟩ := issueLoop_neverFails env nf rest template privateKey w1
      (fun n hn => hp n (by simp [preorderList, hn]))
    refine ⟨w2, ?_, ?_⟩
    · rw [issueCertificate.loop, h1]; exact h2
    · rw [hm2, hm1]; simp [preorderList]
end

theorem savePrivateKey_shape (env : Env) (key : PrivateKey) (f : String) (w : World) :
    ∃ l, (savePrivateKey env key f w).2.trace = w.trace ++ l ∧
      marks l <+: [.keyWritten f] ∧ writtenPaths l <+: [f] ∧ issuedNames l = [] := by
  unfold savePrivateKey
  dsimp only
  split
  · exact ⟨[], by simp [World.skip, marks, writtenPaths, issuedNames]⟩
  · split
    · exact ⟨[.mkdirAll (filepathDir f)], by
        simp [World.skip, World.log, marks, writtenPaths, issuedNames, Action.mark,
          Action.written, Action.names]⟩
    · split
      · rename_i msg code _
        exact ⟨[.mkdirAll (filepathDir f), .openFile f 0o600, .stderr msg], by
          simp [World.skip, World.log, marks, writtenPaths, issuedNames, Action.mark,
            Action.written, Action.names]⟩
      · exact ⟨[.mkdirAll (filepathDir f), .openFile f 0o600], by
          simp [World.skip, World.log, marks, writtenPaths, issuedNames, Action.mark,
            Action.written, Action.names]⟩
      · rename_i b hb
        split
        · exact ⟨[.mkdirAll (filepathDir f), .openFile f 0o600], by
            simp [World.skip, World.log, marks, writtenPaths, issuedNames, Action.mark,
              Action.written, Action.names]⟩
        · refine ⟨[.mkdirAll (filepathDir f), .openFile f 0o600, .pemEncode f b, .close f], ?_⟩
          have hb' : ∀ c, b.Bytes ≠ .der c := by
            intro c
            cases key <;> simp [pemBlockForKey] at hb
            · subst hb; simp
            · split at hb <;> simp at hb
              subst hb; simp
          obtain ⟨ty, bytes⟩ := b
          cases bytes <;>
            simp_all [World.skip, World.log, marks, writtenPaths, issuedNames, Action.mark,
              Action.written, Action.names]

theorem saveCertificate_shape (env : Env) (c : IssuedCertificate) (f : String) (w : World) :
    ∃ l, (saveCertificate env c f w).2.trace = w.trace ++ l ∧
      marks l <+: [.certWritten f] ∧ writtenPaths l <+: [f] ∧ issuedNames l = [] := by
  unfold saveCertificate
  dsimp only
  split
  · exact ⟨[], by simp [World.skip, marks, writtenPaths, issuedNames]⟩
  · split
    · exact ⟨[.mkdirAll (filepathDir f)], by
        simp [World.skip, World.log, marks, writtenPaths, issuedNames, Action.mark,
          Action.written, Action.names]⟩
    · split
      · exact ⟨[.mkdirAll (filepathDir f), .openFile f 0o666], by
          simp [World.skip, World.log, marks, writtenPaths, issuedNames, Action.mark,
            Action.written, Action.names]⟩
      · exact ⟨[.mkdirAll (filepathDir f), .openFile f 0o666,
            .pemEncode f { type := "CERTIFICATE", Bytes := .der c }, .close f], by
          simp [World.skip, World.log, marks, writtenPaths, issuedNames, Action.mark,
            Action.written, Action.names]⟩

theorem saveCertificate_shape_of (env : Env) (c : IssuedCertificate) (f : String)
    (w : World) (x : Outcome × World) (hx : saveCertificate env c f w = x) :
    ∃ l, x.2.trace = w.trace ++ l ∧
      marks l <+: [.certWritten f] ∧ writtenPaths l <+: [f] ∧ issuedNames l = [] :=
  hx ▸ saveCertificate_shape env c f w

theorem not_created_of_names (l : List Action) (h : issuedNames l = [])
    (template parent : x509Certificate) (pub : Option PublicKey) (priv : PrivateKey)
    (cert : IssuedCertificate) : Action.createCertificate template parent pub priv cert ∉ l := by
  intro hmem
  rw [issuedNames, List.filterMap_eq_nil_iff] at h
  have := h _ hmem
  simp [Action.names] at this

theorem issueNode_shape (env : Env) (config : Certificate)
    (caCert : Option x509Certificate) (caKey : Option PrivateKey) (w : World) :
    ∃ l, (issueCertificate.node.world
        (issueCertificate.node env config caCert caKey w)).trace =
          w.trace ++ .call config caCert caKey :: l ∧
      marks l <+: [.keyWritten (keyFilename config), .created (subjectOf config),
        .certWritten (certFilename config)] ∧
      writtenPaths l <+: [keyFilename config, certFilename config] ∧
      issuedNames l <+: [(subjectOf config, issuerOf caCert config)] ∧
      SignedAsResolved config caCert caKey l := by
  unfold issueCertificate.node
  dsimp only
  split
  · exact ⟨[.stdout ("Generating certificate for: " ++ config.CommonName ++ "\n")], by
      simp [issueCertificate.node.world, World.skip, World.log, marks, writtenPaths,
        issuedNames, Action.mark, Action.written, Action.names, SignedAsResolved]⟩
  · rename_i k hk
    obtain ⟨lk, hlk, hmk, hwk, hnk⟩ := savePrivateKey_shape env (.rsa k) (keyFilename config)
      ((w.log (.call config caCert caKey)).log
        (.stdout ("Generating certificate for: " ++ config.CommonName ++ "\n"))).skip
    have key_end : ∀ (o : Outcome) (w2 : World),
        savePrivateKey env (.rsa k) (keyFilename config)
          ((w.log (.call config caCert caKey)).log
            (.stdout ("Generating certificate for: " ++ config.CommonName ++ "\n"))).skip
          = (o, w2) →
        ∃ l, w2.trace = w.trace ++ .call config caCert caKey :: l ∧
          marks l <+: [.keyWritten (keyFilename config), .created (subjectOf config),
            .certWritten (certFilename config)] ∧
          writtenPaths l <+: [keyFilename config, certFilename config] ∧
          issuedNames l <+: [(subjectOf config, issuerOf caCert config)] ∧
          SignedAsResolved config caCert caKey l := by
      intro o w2 h
      rw [h] at hlk
      refine ⟨.stdout ("Generating certificate for: " ++ config.CommonName ++ "\n") :: lk,
        ?_, ?_, ?_, ?_, ?_⟩
      · simpa [World.skip, World.log] using hlk
      · have : marks (.stdout ("Generating certificate for: " ++ config.CommonName ++ "\n") :: lk)
            = marks lk := by simp [marks, Action.mark]
        rw [this]
        exact hmk.trans ⟨[_, _], rfl⟩
      · have : writtenPaths
            (.stdout ("Generating certificate for: " ++ config.CommonName ++ "\n") :: lk)
            = writtenPaths lk := by simp [writtenPaths, Action.written]
        rw [this]
        exact hwk.trans ⟨[_], rfl⟩
      · have : issuedNames
            (.stdout ("Generating certificate for: " ++ config.CommonName ++ "\n") :: lk)
            = issuedNames lk := by simp [issuedNames, Action.names]
        rw [this, hnk]
        exact List.nil_prefix
      · intro template parent pub priv cert hmem
        simp only [List.mem_cons, reduceCtorEq, false_or] at hmem
        exact absurd hmem (not_created_of_names lk hnk _ _ _ _ _)
    split
    · rename_i err w2 h; exact key_end _ _ h
    · rename_i code w2 h; exact key_end _ _ h
    · rename_i w2 h; exact key_end _ _ h
    · rename_i w2 hsave
      obtain ⟨htr, -⟩ := savePrivateKey_rsa_ok _ _ _ _ _ hsave
      simp only [World.log, World.skip, List.append_assoc, List.singleton_append] at htr
      split
      · refine ⟨_, by simpa [issueCertificate.node.world] using htr, ?_⟩
        simp [marks, writtenPaths, issuedNames, keyFileActions, Action.mark, Action.written,
          Action.names, SignedAsResolved]
      · dsimp only [randomSerial]
        split
        · rename_i _ w3 hser
          simp only [Prod.mk.injEq] at hser
          obtain ⟨-, rfl⟩ := hser
          refine ⟨_, by simpa [issueCertificate.node.world, World.skip] using htr, ?_⟩
          simp [marks, writtenPaths, issuedNames, keyFileActions, Action.mark, Action.written,
            Action.names, SignedAsResolved]
        · rename_i serial w3 hser
          simp only [Prod.mk.injEq] at hser
          obtain ⟨-, rfl⟩ := hser
          split
          · rename_i err _
            refine ⟨.stdout ("Generating certificate for: " ++ config.CommonName ++ "\n") ::
              keyFileActions k (keyFilename config) ++
                [.stderr ("Failed to create certificate: " ++ err.msg)], ?_, ?_⟩
            · simp [issueCertificate.node.world, World.skip, World.log, htr]
            · simp [marks, writtenPaths, issuedNames, keyFileActions, Action.mark,
                Action.written, Action.names, SignedAsResolved]
          · rename_i expires _ _ _ _
            generalize hT : issueCertificate.template env config serial _ _ = T
            have hTs : T.Subject = subjectOf config := by
              rw [← hT, template_Subject]
            generalize hP : (match caCert with
              | none => T
              | some c => c) = P
            have hPs : P.Subject = issuerOf caCert config := by
              subst hP; cases caCert <;> simp [issuerOf, hTs]
            generalize hK : (match caKey with
              | none => PrivateKey.rsa k
              | some k => k) = K
            generalize hx : saveCertificate env _ _ _ = x
            obtain ⟨lc, hlc, hmc, hwc, hnc⟩ := saveCertificate_shape_of _ _ _ _ _ hx
            simp only [World.log, World.skip, htr] at hlc
            have key : ∃ l, x.2.trace = w.trace ++ .call config caCert caKey :: l ∧
                marks l <+: [.keyWritten (keyFilename config), .created (subjectOf config),
                  .certWritten (certFilename config)] ∧
                writtenPaths l <+: [keyFilename config, certFilename config] ∧
                issuedNames l <+: [(subjectOf config, issuerOf caCert config)] ∧
                SignedAsResolved config caCert caKey l := by
              refine ⟨.stdout ("Generating certificate for: " ++ config.CommonName ++ "\n") ::
                keyFileActions k (keyFilename config) ++
                [.createCertificate T P (publicKey (.rsa k)) K
                  (x509CreateCertificate T P (publicKey (.rsa k)) K)] ++ lc,
                ?_, ?_, ?_, ?_, ?_⟩
              · rw [hlc]
                simp only [List.append_assoc, List.singleton_append, List.cons_append,
                  List.nil_append]
              · simp only [marks, List.filterMap_append, List.filterMap_cons, Action.mark,
                  keyFileActions, List.filterMap_nil, x509CreateCertificate, hTs]
                simp only [marks] at hmc
                simp only [List.cons_append, List.nil_append, List.prefix_cons_inj]
                exact hmc
              · simp only [writtenPaths, List.filterMap_append, List.filterMap_cons,
                  Action.written, keyFileActions, List.filterMap_nil]
                simp only [writtenPaths] at hwc
                simp only [List.cons_append, List.nil_append, List.prefix_cons_inj]
                exact hwc
              · simp only [issuedNames, List.filterMap_append, List.filterMap_cons,
                  Action.names, keyFileActions, List.filterMap_nil, x509CreateCertificate,
                  hTs, hPs]
                simp only [issuedNames] at hnc
                rw [hnc]
                simp
              · intro template parent pub priv cert hmem
                simp only [keyFileActions, List.cons_append, List.nil_append, List.mem_cons,
                  List.mem_append, reduceCtorEq, false_or, List.mem_singleton,
                  List.not_mem_nil, or_false, Action.createCertificate.injEq] at hmem
                rcases hmem with ⟨rfl, rfl, rfl, rfl, rfl⟩ | hmem
                · exact ⟨hTs, hP.symm, ⟨k, rfl, hK.symm⟩, rfl⟩
                · exact absurd hmem (not_created_of_names lc hnc _ _ _ _ _)
            split <;> simpa [issueCertificate.node.world] using key

theorem issueNode_inr_Subject (env : Env) (config : Certificate)
    (caCert : Option x509Certificate) (caKey : Option PrivateKey) (w w1 : World)
    (template : x509Certificate) (privateKey : RSAPrivateKey)
    (h : issueCertificate.node env config caCert caKey w = .inr (template, privateKey, w1)) :
    template.Subject = subjectOf config := by
  obtain ⟨expires, -, -, -, ht, -⟩ := issueNode_inr _ _ _ _ _ _ _ _ h
  rw [ht, template_Subject]

mutual
theorem issueCertificate_names (env : Env) :
    ∀ (config : Certificate) (caCert : Option x509Certificate) (caKey : Option PrivateKey)
      (w : World),
      ∃ l, (issueCertificate env config caCert caKey w).2.trace =
          w.trace ++ .call config caCert caKey :: l ∧
        (issuedNames l).Sublist (chainNames (issuerOf caCert config) config)
  | .mk cn c st l o ou e sans dir p issue, caCert, caKey, w => by
    obtain ⟨l0, h0, -, -, hn0, -⟩ := issueNode_shape env
      (.mk cn c st l o ou e sans dir p issue) caCert caKey w
    rw [issueCertificate]
    cases hnode : issueCertificate.node env (.mk cn c st l o ou e sans dir p issue) caCert caKey w with
    | inl r =>
      obtain ⟨out, w1⟩ := r
      rw [hnode] at h0
      refine ⟨_, h0, ?_⟩
      rw [chainNames]
      exact hn0.sublist.trans (by simp)
    | inr r =>
      obtain ⟨template, privateKey, w1⟩ := r
      rw [hnode] at h0
      have hs := issueNode_inr_Subject _ _ _ _ _ _ _ _ hnode
      obtain ⟨l1, h1, hn1⟩ := issueLoop_names env issue template privateKey w1
      refine ⟨l0 ++ l1, ?_, ?_⟩
      · simp only [h1]
        simp only [issueCertificate.node.world] at h0
        rw [h0]; simp
      · have : issuedNames (l0 ++ l1) = issuedNames l0 ++ issuedNames l1 := by
          simp [issuedNames]
        rw [this, chainNames]
        rw [hs] at hn1
        exact hn0.sublist.append hn1
theorem issueLoop_names (env : Env) :
    ∀ (issue : List Certificate) (template : x509Certificate) (privateKey : RSAPrivateKey)
      (w : World),
      ∃ l, (issueCertificate.loop env issue template privateKey w).2.trace = w.trace ++ l ∧
        (issuedNames l).Sublist (chainNamesList template.Subject issue)
  | [], _, _, w => ⟨[], by simp [issueCertificate.loop], by simp [issuedNames]⟩
  | certConfig :: rest, template, privateKey, w => by
    obtain ⟨l0, h0, hn0⟩ := issueCertificate_names env certConfig (some template)
      (some (.rsa privateKey)) w
    rw [issueCertificate.loop, chainNamesList]
    have hc : issuedNames (.call certConfig (some template) (some (.rsa privateKey)) :: l0)
        = issuedNames l0 := by simp [issuedNames, Action.names]
    have hn0' : (issuedNames (.call certConfig (some template) (some (.rsa privateKey)) :: l0)).Sublist
        (chainNames template.Subject certConfig ++ chainNamesList template.Subject rest) := by
      rw [hc]; exact hn0.trans (List.sublist_append_left _ _)
    split
    · rename_i err w1 h; rw [h] at h0; exact ⟨_, h0, hn0'⟩
    · rename_i w1 h
      rw [h] at h0
      obtain ⟨l1, h1, hn1⟩ := issueLoop_names env rest template privateKey w1
      refine ⟨.call certConfig (some template) (some (.rsa privateKey)) :: l0 ++ l1, ?_, ?_⟩
      · rw [h1]; simp only at h0; rw [h0]; simp
      · have : issuedNames
            (.call certConfig (some template) (some (.rsa privateKey)) :: l0 ++ l1)
            = issuedNames l0 ++ issuedNames l1 := by simp [issuedNames, Action.names]
        rw [this]
        exact hn0.append hn1
    · rename_i code w1 h; rw [h] at h0; exact ⟨_, h0, hn0'⟩
    · rename_i w1 h; rw [h] at h0; exact ⟨_, h0, hn0'⟩
end

theorem issueLoop_first_call (env : Env) (certConfig : Certificate)
    (rest : List Certificate) (template : x509Certificate) (privateKey : RSAPrivateKey)
    (w : World) :
    ∃ l, (issueCertificate.loop env (certConfig :: rest) template privateKey w).2.trace =
      w.trace ++ .call certConfig (some template) (some (.rsa privateKey)) :: l := by
  obtain ⟨l0, h0, -⟩ := issueCertificate_names env certConfig (some template)
    (some (.rsa privateKey)) w
  rw [issueCertificate.loop]
  split
  · rename_i err w1 h; rw [h] at h0; exact ⟨_, h0⟩
  · rename_i w1 h
    rw [h] at h0
    obtain ⟨l1, h1, -⟩ := issueLoop_names env rest template privateKey w1
    refine ⟨l0 ++ l1, ?_⟩
    rw [h1]; simp only at h0; rw [h0]; simp
  · rename_i code w1 h; rw [h] at h0; exact ⟨_, h0⟩
  · rename_i w1 h; rw [h] at h0; exact ⟨_, h0⟩

theorem generateLoop_names (env : Env) (certs : List Certificate) (w : World) :
    ∃ l, (GenerateCertificates.loop env certs w).2.trace = w.trace ++ l ∧
      (issuedNames l).Sublist (certs.flatMap fun c => chainNames (subjectOf c) c) := by
  induction certs generalizing w with
  | nil => exact ⟨[], by simp [GenerateCertificates.loop], by simp [issuedNames]⟩
  | cons certConfig rest ih =>
    obtain ⟨l0, h0, hn0⟩ := issueCertificate_names env certConfig none none w
    have hc : issuedNames (.call certConfig none none :: l0) = issuedNames l0 := by
      simp [issuedNames, Action.names]
    simp only [issuerOf] at hn0
    have hn0' : (issuedNames (.call certConfig none none :: l0)).Sublist
        ((certConfig :: rest).flatMap fun c => chainNames (subjectOf c) c) := by
      rw [hc, List.flatMap_cons]; exact hn0.trans (List.sublist_append_left _ _)
    rw [GenerateCertificates.loop]
    split
    · rename_i err w1 h; rw [h] at h0; exact ⟨_, h0, hn0'⟩
    · rename_i w1 h
      rw [h] at h0
      obtain ⟨l1, h1, hn1⟩ := ih w1
      refine ⟨.call certConfig none none :: l0 ++ l1, ?_, ?_⟩
      · rw [h1]; simp only at h0; rw [h0]; simp
      · have : issuedNames (.call certConfig none none :: l0 ++ l1)
            = issuedNames l0 ++ issuedNames l1 := by simp [issuedNames, Action.names]
        rw [this, List.flatMap_cons]
        exact hn0.append hn1
    · rename_i code w1 h; rw [h] at h0; exact ⟨_, h0, hn0'⟩
    · rename_i w1 h; rw [h] at h0; exact ⟨_, h0, hn0'⟩

theorem generateLoop_first_call (env : Env) (certConfig : Certificate)
    (rest : List Certificate) (w : World) :
    ∃ l, (GenerateCertificates.loop env (certConfig :: rest) w).2.trace =
      w.trace ++ .call certConfig none none :: l := by
  obtain ⟨l0, h0, -⟩ := issueCertificate_names env certConfig none none w
  rw [GenerateCertificates.loop]
  split
  · rename_i err w1 h; rw [h] at h0; exact ⟨_, h0⟩
  · rename_i w1 h
    rw [h] at h0
    obtain ⟨l1, h1, -⟩ := generateLoop_names env rest w1
    refine ⟨l0 ++ l1, ?_⟩
    rw [h1]; simp only at h0; rw [h0]; simp
  · rename_i code w1 h; rw [h] at h0; exact ⟨_, h0⟩
  · rename_i w1 h; rw [h] at h0; exact ⟨_, h0⟩

theorem generateLoop_neverFails (env : Env) (nf : env.NeverFails)
    (certs : List Certificate) (w : World)
    (hp : ∀ n ∈ preorderList certs, ∃ d, env.parseDuration n.Expires = .ok d) :
    ∃ w1, GenerateCertificates.loop env certs w = (.returned none, w1) ∧
      marks w1.trace = marks w.trace ++ (preorderList certs).flatMap nodeMarks := by
  induction certs generalizing w with
  | nil => exact ⟨w, by simp [GenerateCertificates.loop], by simp [preorderList]⟩
  | cons certConfig rest ih =>
    obtain ⟨w1, h1, hm1⟩ := issueCertificate_neverFails env nf certConfig none none w
      (fun n hn => hp n (by simp [preorderList, hn]))
    obtain ⟨w2, h2, hm2⟩ := ih w1 (fun n hn => hp n (by simp [preorderList, hn]))
    refine ⟨w2, ?_, ?_⟩
    · rw [GenerateCertificates.loop, h1]; exact h2
    · rw [hm2, hm1]; simp [preorderList]

theorem envOK_neverFails : envOK.NeverFails where
  rsaGenerateKey _ := ⟨_, rfl⟩
  mkdirAll _ _ := rfl
  openFile _ _ _ := rfl
  pemEncode _ _ _ := rfl
  close _ _ := rfl
  randInt t := ⟨t % randomSerial.max, by simp [envOK, randomSerial.max]⟩
  createCertificate _ _ _ _ _ := rfl

/-! ## The claims -/

/-- C8: `randomSerial` asks `rand.Int` for a value below exactly `2^130 - 1`,
and whenever `rand.Int` keeps its contract of returning a value in `[0, max)`,
a serial returned without error is at least 0 and below `2^130 - 1`, so it is
never `2^130 - 1` itself. -/
theorem randomSerial_below_max (env : Env) (w : World) (s : Nat)
    (hrand : ∀ t max r, env.randInt t max = .ok r → r < max)
    (h : (randomSerial env w).1 = .ok s) :
    randomSerial.max = 2 ^ 130 - 1 ∧
      randomSerial.max = 1361129467683753853853498429727072845823 ∧
      (randomSerial env w).1 = env.randInt w.tick (2 ^ 130 - 1) ∧
      0 ≤ s ∧ s < 2 ^ 130 - 1 ∧ s ≠ 2 ^ 130 - 1 := by
  have hs : s < randomSerial.max := hrand _ _ _ h
  have hmax : randomSerial.max = 2 ^ 130 - 1 := rfl
  refine ⟨hmax, by rw [hmax]; norm_num, rfl, Nat.zero_le s, hmax ▸ hs, ?_⟩
  rw [hmax] at hs
  exact Nat.ne_of_lt hs

theorem randomSerial_below_max_witness :
    randomSerial.max = 2 ^ 130 - 1 ∧
      randomSerial.max = 1361129467683753853853498429727072845823 ∧
      (randomSerial envOK World.init).1 = envOK.randInt World.init.tick (2 ^ 130 - 1) ∧
      0 ≤ 0 ∧ 0 < 2 ^ 130 - 1 ∧ 0 ≠ 2 ^ 130 - 1 :=
  randomSerial_below_max envOK World.init 0
    (by
      intro t max r h
      simp only [envOK] at h
      split at h
      · simp at h
      · simp only [Except.ok.injEq] at h
        subst h
        exact Nat.mod_lt _ (Nat.pos_of_ne_zero ‹_›))
    rfl

/-- C3: in the template built by `issueCertificate`, `IPAddresses` is the
subsequence of the node's SAN strings that `net.ParseIP` accepts, as parsed
addresses, `DNSNames` is the subsequence it rejects, both in declared order,
and the two lengths add up to the number of SAN strings; the template a node
holds when it reaches its loop is such a template. -/
theorem template_subject_alt_names (env : Env) (config : Certificate) :
    (∀ serial notBefore notAfter,
      (issueCertificate.template env config serial notBefore notAfter).IPAddresses =
          config.SubjectAltNames.filterMap env.parseIP ∧
        (issueCertificate.template env config serial notBefore notAfter).DNSNames =
          config.SubjectAltNames.filter (fun h => (env.parseIP h).isNone) ∧
        (issueCertificate.template env config serial notBefore notAfter).IPAddresses.length +
          (issueCertificate.template env config serial notBefore notAfter).DNSNames.length =
          config.SubjectAltNames.length) ∧
    ∀ caCert caKey w,
      match issueCertificate.node env config caCert caKey w with
      | .inr (template, _, _) =>
        template.IPAddresses = config.SubjectAltNames.filterMap env.parseIP ∧
          template.DNSNames = config.SubjectAltNames.filter (fun h => (env.parseIP h).isNone)
      | .inl _ => True := by
  have key : ∀ serial notBefore notAfter,
      (issueCertificate.template env config serial notBefore notAfter).IPAddresses =
          config.SubjectAltNames.filterMap env.parseIP ∧
        (issueCertificate.template env config serial notBefore notAfter).DNSNames =
          config.SubjectAltNames.filter (fun h => (env.parseIP h).isNone) := by
    intro serial notBefore notAfter
    simp [issueCertificate.template, addSubjectAltNames_spec]
  refine ⟨?_, ?_⟩
  · intro serial notBefore notAfter
    refine ⟨(key _ _ _).1, (key _ _ _).2, ?_⟩
    rw [(key _ _ _).1, (key _ _ _).2]
    generalize config.SubjectAltNames = sans
    induction sans with
    | nil => simp
    | cons h hs ih =>
      cases hp : env.parseIP h <;>
        simp [List.filterMap_cons, List.filter_cons, hp] at ih ⊢ <;> omega
  · intro caCert caKey w
    split
    · rename_i template privateKey w1 h
      obtain ⟨expires, -, -, -, ht, -⟩ := issueNode_inr _ _ _ _ _ _ _ _ h
      rw [ht]
      exact key _ _ _
    · trivial

/-- C10: whatever the node, the template built by `issueCertificate` has
`KeyUsage` exactly `KeyEncipherment|DigitalSignature` (the `CertSign` bit is
clear), `ExtKeyUsage` exactly `[ServerAuth]`, `BasicConstraintsValid` true and
`IsCA` false; its `Subject` carries the common name, and the country,
organization and organizational unit as one-element lists holding the node's
strings, and no locality or province; the template a node holds when it
reaches its loop is such a template. -/
theorem template_fixed_fields (env : Env) (config : Certificate) :
    (∀ serial notBefore notAfter,
      (issueCertificate.template env config serial notBefore notAfter).KeyUsage =
          KeyUsageKeyEncipherment ||| KeyUsageDigitalSignature ∧
        (issueCertificate.template env config serial notBefore notAfter).KeyUsage = 5 ∧
        (issueCertificate.template env config serial notBefore notAfter).KeyUsage &&&
          KeyUsageCertSign = 0 ∧
        (issueCertificate.template env config serial notBefore notAfter).ExtKeyUsage =
          [ExtKeyUsageServerAuth] ∧
        (issueCertificate.template env config serial notBefore notAfter).BasicConstraintsValid
          = true ∧
        (issueCertificate.template env config serial notBefore notAfter).IsCA = false ∧
        (issueCertificate.template env config serial notBefore notAfter).Subject =
          { CommonName := config.CommonName
            Country := [config.Country]
            Organization := [config.Organization]
            OrganizationalUnit := [config.OrganizationUnit]
            Locality := []
            Province := []
            StreetAddress := []
            PostalCode := []
            SerialNumber := "" }) ∧
    ∀ caCert caKey w,
      match issueCertificate.node env config caCert caKey w with
      | .inr (template, _, _) =>
        template.KeyUsage = 5 ∧ template.ExtKeyUsage = [ExtKeyUsageServerAuth] ∧
          template.BasicConstraintsValid = true ∧ template.IsCA = false ∧
          template.Subject.CommonName = config.CommonName ∧
          template.Subject.Country = [config.Country] ∧
          template.Subject.Organization = [config.Organization] ∧
          template.Subject.OrganizationalUnit = [config.OrganizationUnit] ∧
          template.Subject.Locality = [] ∧ template.Subject.Province = []
      | .inl _ => True := by
  refine ⟨?_, ?_⟩
  · intro serial notBefore notAfter
    simp [issueCertificate.template, addSubjectAltNames_spec, KeyUsageKeyEncipherment,
      KeyUsageDigitalSignature, KeyUsageCertSign, ExtKeyUsageServerAuth]
    decide
  · intro caCert caKey w
    split
    · rename_i template privateKey w1 h
      obtain ⟨expires, -, -, -, ht, -⟩ := issueNode_inr _ _ _ _ _ _ _ _ h
      rw [ht]
      simp [issueCertificate.template, addSubjectAltNames_spec, KeyUsageKeyEncipherment,
        KeyUsageDigitalSignature, ExtKeyUsageServerAuth]
    · trivial

/-- C5, at a node whose key generation fails: `issueCertificate` does stop
there, with no file written and no child issued, but what it returns to its
caller is the nil error; and so it is for every node, every pair of issuer
arguments and every environment in which `rsa.GenerateKey` fails: the only
effects are the invocation and the line printed, and nil is returned. -/
theorem keygen_failure_returns_nil :
    (issueCertificate envNoKey rootNode none none World.init).1 = .returned none ∧
      writtenPaths (issueCertificate envNoKey rootNode none none World.init).2.trace = [] ∧
      calledNames (issueCertificate envNoKey rootNode none none World.init).2.trace
        = ["Root CA"] ∧
      ∀ (env : Env) (config : Certificate) (caCert : Option x509Certificate)
        (caKey : Option PrivateKey) (w : World),
        match env.rsaGenerateKey (w.tick + 2) 4096 with
        | .error _ =>
          (issueCertificate env config caCert caKey w).1 = .returned none ∧
            (issueCertificate env config caCert caKey w).2.trace = w.trace ++
              [.call config caCert caKey,
               .stdout ("Generating certificate for: " ++ config.CommonName ++ "\n")]
        | .ok _ => True := by
  refine ⟨by decide, by decide, by decide, ?_⟩
  intro env config caCert caKey w
  split
  · rename_i err h
    rw [issueCertificate_eq]
    simp [issueCertificate.node, World.log, World.skip, h]
  · trivial

theorem generateLoop_returns_nil (env : Env) (certs : List Certificate)
    (w : World) (err : Error) :
    (GenerateCertificates.loop env certs w).1 ≠ .returned (some err) := by
  induction certs generalizing w with
  | nil => simp [GenerateCertificates.loop]
  | cons certConfig rest ih =>
    rw [GenerateCertificates.loop]
    split
    · simp
    · exact ih _
    · simp
    · simp

/-- C7, at a configuration whose only top-level node has a malformed
`expires`, and at one whose root has such a child: `issueCertificate` returns
the parse error for the node, yet the loop over the children and
`GenerateCertificates` return nil, as `GenerateCertificates` does for every
configuration, so that `RunE` returns nil and the exit status is 0. -/
theorem generate_swallows_errors :
    (issueCertificate envOK badNode none none World.init).1 =
        .returned (some ⟨"time: invalid duration not-a-duration"⟩) ∧
      (GenerateCertificates envOK { Certificates := [badNode] } World.init).1 = .returned none ∧
      (issueCertificate envOK rootOfBad none none World.init).1 = .returned none ∧
      (RunE envBadConfig "certificates.yml" World.init).1 = .returned none ∧
      (Execute envBadConfig "certificates.yml" World.init).1 = 0 ∧
      ∀ (env : Env) (config : Configuration) (w : World) (err : Error),
        (GenerateCertificates env config w).1 ≠ .returned (some err) := by
  refine ⟨by decide, by decide, by decide, by decide, by decide, ?_⟩
  intro env config w err
  exact generateLoop_returns_nil env config.Certificates w err

theorem flatMap_nodeMarks_node (l : List Certificate) :
    (l.flatMap nodeMarks).filterMap Mark.node = l := by
  induction l with
  | nil => rfl
  | cons c cs ih =>
    simp only [List.flatMap_cons, List.filterMap_append, ih]
    simp [nodeMarks, Mark.node]

/-- C4: when nothing fails (no key generation, file operation, serial or
signing step, and every `expires` of the forest parses),
`GenerateCertificates` returns nil and the milestones it adds to the trace are
those of the nodes of the forest in depth-first pre-order, roots and children
in declared order: for each node in turn its invocation, its key file, its
certificate and its certificate file; so the nodes issued are the pre-order
sequence, each once, and a node's files are written before any descendant is
issued. -/
theorem generate_issues_in_preorder (env : Env) (config : Configuration) (w : World)
    (nf : env.NeverFails)
    (hp : ∀ n ∈ preorderList config.Certificates, ∃ d, env.parseDuration n.Expires = .ok d) :
    ∃ w1, GenerateCertificates env config w = (.returned none, w1) ∧
      marks w1.trace = marks w.trace ++ (preorderList config.Certificates).flatMap nodeMarks ∧
      (marks w1.trace).filterMap Mark.node =
        (marks w.trace).filterMap Mark.node ++ preorderList config.Certificates := by
  obtain ⟨w1, h1, hm⟩ := generateLoop_neverFails env nf config.Certificates w hp
  refine ⟨w1, h1, hm, ?_⟩
  rw [hm, List.filterMap_append, flatMap_nodeMarks_node]

theorem generate_issues_in_preorder_witness :
    ∃ w1, GenerateCertificates envOK scenario World.init = (.returned none, w1) ∧
      marks w1.trace = marks World.init.trace ++
        (preorderList scenario.Certificates).flatMap nodeMarks ∧
      (marks w1.trace).filterMap Mark.node =
        (marks World.init.trace).filterMap Mark.node ++ preorderList scenario.Certificates :=
  generate_issues_in_preorder envOK scenario World.init envOK_neverFails (by
    intro n hn
    simp only [scenario, preorderList, rootNode, leafNode, preorder, List.append_nil,
      List.mem_cons, List.mem_singleton, List.not_mem_nil, or_false] at hn
    rcases hn with rfl | rfl
    · exact ⟨_, rfl⟩
    · exact ⟨_, rfl⟩)

theorem rootCalls_of_marks (l : List Action) (ms : List Mark)
    (hm : marks l <+: ms) (hms : ∀ m ∈ ms, ∀ c, m ≠ .issue c) : rootCalls l = [] := by
  rw [rootCalls, List.filterMap_eq_nil_iff]
  intro a ha
  cases a with
  | call config caCert caKey =>
    exfalso
    have : Mark.issue config ∈ marks l := by
      rw [marks, List.mem_filterMap]
      exact ⟨_, ha, rfl⟩
    exact hms _ (hm.subset this) config rfl
  | _ => rfl

mutual
theorem issueCertificate_rootCalls (env : Env) :
    ∀ (config : Certificate) (caCert : Option x509Certificate) (caKey : Option PrivateKey)
      (w : World),
      ∃ l, (issueCertificate env config caCert caKey w).2.trace =
          w.trace ++ .call config caCert caKey :: l ∧ rootCalls l = []
  | .mk cn c st l o ou e sans dir p issue, caCert, caKey, w => by
    obtain ⟨l0, h0, hm0, -⟩ := issueNode_shape env
      (.mk cn c st l o ou e sans dir p issue) caCert caKey w
    have hr0 : rootCalls l0 = [] := rootCalls_of_marks l0 _ hm0 (by simp)
    rw [issueCertificate]
    cases hnode : issueCertificate.node env (.mk cn c st l o ou e sans dir p issue) caCert caKey w with
    | inl r =>
      obtain ⟨out, w1⟩ := r
      rw [hnode] at h0
      exact ⟨_, h0, hr0⟩
    | inr r =>
      obtain ⟨template, privateKey, w1⟩ := r
      rw [hnode] at h0
      obtain ⟨l1, h1, hr1⟩ := issueLoop_rootCalls env issue template privateKey w1
      refine ⟨l0 ++ l1, ?_, ?_⟩
      · simp only [h1]
        simp only [issueCertificate.node.world] at h0
        rw [h0]; simp
      · simp only [rootCalls, List.filterMap_append] at hr0 hr1 ⊢
        rw [hr0, hr1]; rfl
theorem issueLoop_rootCalls (env : Env) :
    ∀ (issue : List Certificate) (template : x509Certificate) (privateKey : RSAPrivateKey)
      (w : World),
      ∃ l, (issueCertificate.loop env issue template privateKey w).2.trace = w.trace ++ l ∧
        rootCalls l = []
  | [], _, _, w => ⟨[], by simp [issueCertificate.loop], rfl⟩
  | certConfig :: rest, template, privateKey, w => by
    obtain ⟨l0, h0, hr0⟩ := issueCertificate_rootCalls env certConfig (some template)
      (some (.rsa privateKey)) w
    have hr0' : rootCalls (.call certConfig (some template) (some (.rsa privateKey)) :: l0)
        = [] := by
      simp only [rootCalls, List.filterMap_cons, Action.rootCall] at hr0 ⊢
      exact hr0
    rw [issueCertificate.loop]
    split
    · rename_i err w1 h; rw [h] at h0; exact ⟨_, h0, hr0'⟩
    · rename_i w1 h
      rw [h] at h0
      obtain ⟨l1, h1, hr1⟩ := issueLoop_rootCalls env rest template privateKey w1
      refine ⟨.call certConfig (some template) (some (.rsa privateKey)) :: l0 ++ l1, ?_, ?_⟩
      · rw [h1]; simp only at h0; rw [h0]; simp
      · have : rootCalls (.call certConfig (some template) (some (.rsa privateKey)) :: l0 ++ l1)
            = rootCalls (.call certConfig (some template) (some (.rsa privateKey)) :: l0) ++
              rootCalls l1 := by
          simp only [rootCalls, ← List.filterMap_append, List.cons_append]
        rw [this, hr0', hr1]; rfl
    · rename_i code w1 h; rw [h] at h0; exact ⟨_, h0, hr0'⟩
    · rename_i w1 h; rw [h] at h0; exact ⟨_, h0, hr0'⟩
end

theorem generateLoop_rootCalls (env : Env) (certs : List Certificate) (w : World) :
    ∃ l, (GenerateCertificates.loop env certs w).2.trace = w.trace ++ l ∧
      (rootCalls l).Sublist certs ∧
      (env.NeverFails →
        (∀ n ∈ preorderList certs, ∃ d, env.parseDuration n.Expires = .ok d) →
        rootCalls l = certs) := by
  induction certs generalizing w with
  | nil => exact ⟨[], by simp [GenerateCertificates.loop], by simp [rootCalls],
      fun _ _ => rfl⟩
  | cons certConfig rest ih =>
    obtain ⟨l0, h0, hr0⟩ := issueCertificate_rootCalls env certConfig none none w
    have hr0' : rootCalls (.call certConfig none none :: l0) = [certConfig] := by
      simp only [rootCalls, List.filterMap_cons, Action.rootCall] at hr0 ⊢
      rw [hr0]
    have hfail : ∀ out w1, issueCertificate env certConfig none none w = (out, w1) →
        out ≠ .returned none → env.NeverFails →
        (∀ n ∈ preorderList (certConfig :: rest), ∃ d, env.parseDuration n.Expires = .ok d) →
        rootCalls (.call certConfig none none :: l0) = certConfig :: rest := by
      intro out w1 h hout nf hp
      obtain ⟨w2, h2, -⟩ := issueCertificate_neverFails env nf certConfig none none w
        (fun n hn => hp n (by simp [preorderList, hn]))
      rw [h2] at h
      simp only [Prod.mk.injEq] at h
      exact absurd h.1.symm hout
    rw [GenerateCertificates.loop]
    split
    · rename_i err w1 h
      rw [h] at h0
      exact ⟨_, h0, by rw [hr0']; simp, hfail _ _ h (by simp)⟩
    · rename_i w1 h
      rw [h] at h0
      obtain ⟨l1, h1, hr1, heq1⟩ := ih w1
      have happ : rootCalls (.call certConfig none none :: l0 ++ l1)
          = certConfig :: rootCalls l1 := by
        have : rootCalls (.call certConfig none none :: l0 ++ l1)
            = rootCalls (.call certConfig none none :: l0) ++ rootCalls l1 := by
          simp only [rootCalls, ← List.filterMap_append, List.cons_append]
        rw [this, hr0']; rfl
      refine ⟨.call certConfig none none :: l0 ++ l1, ?_, ?_, ?_⟩
      · rw [h1]; simp only at h0; rw [h0]; simp
      · rw [happ]; exact hr1.cons₂ _
      · intro nf hp
        rw [happ, heq1 nf (fun n hn => hp n (by simp [preorderList, hn]))]
    · rename_i code w1 h
      rw [h] at h0
      exact ⟨_, h0, by rw [hr0']; simp, hfail _ _ h (by simp)⟩
    · rename_i w1 h
      rw [h] at h0
      exact ⟨_, h0, by rw [hr0']; simp, hfail _ _ h (by simp)⟩

theorem issueLoop_reach (env : Env) (done : List Certificate) (child : Certificate)
    (rest : List Certificate) (template : x509Certificate) (privateKey : RSAPrivateKey)
    (w w2 : World) (h : childrenDone env done template privateKey w = some w2) :
    issueCertificate.loop env (done ++ child :: rest) template privateKey w =
      issueCertificate.loop env (child :: rest) template privateKey w2 := by
  induction done generalizing w with
  | nil =>
    simp only [childrenDone, Option.some.injEq] at h
    rw [h]; rfl
  | cons c cs ih =>
    rw [childrenDone] at h
    rw [List.cons_append, issueCertificate.loop]
    split at h
    · rename_i w1 hc
      rw [hc]
      exact ih w1 h
    · simp at h

theorem issueLoop_not_reached (env : Env) (done : List Certificate) (later : List Certificate)
    (template : x509Certificate) (privateKey : RSAPrivateKey) (w : World)
    (h : childrenDone env done template privateKey w = none) :
    issueCertificate.loop env (done ++ later) template privateKey w =
      issueCertificate.loop env done template privateKey w := by
  induction done generalizing w with
  | nil => simp [childrenDone] at h
  | cons c cs ih =>
    rw [childrenDone] at h
    rw [List.cons_append, issueCertificate.loop, issueCertificate.loop]
    split at h
    · rename_i w1 hc
      rw [hc]
      exact ih w1 h
    · rename_i hne
      split
      · rfl
      · rename_i w1 hc
        exact absurd hc (hne w1)
      · rfl
      · rfl

theorem issueLoop_at_child (env : Env) (child : Certificate) (rest : List Certificate)
    (template : x509Certificate) (privateKey : RSAPrivateKey) (w : World) :
    (∃ l, (issueCertificate.loop env (child :: rest) template privateKey w).2.trace =
      (issueCertificate env child (some template) (some (.rsa privateKey)) w).2.trace ++ l) ∧
    (∀ w3, issueCertificate env child (some template) (some (.rsa privateKey)) w =
        (.returned none, w3) →
      issueCertificate.loop env (child :: rest) template privateKey w =
        issueCertificate.loop env rest template privateKey w3) ∧
    ((issueCertificate env child (some template) (some (.rsa privateKey)) w).1 ≠
        .returned none →
      (issueCertificate.loop env (child :: rest) template privateKey w).2 =
        (issueCertificate env child (some template) (some (.rsa privateKey)) w).2) := by
  rw [issueCertificate.loop]
  split
  · rename_i err w1 h
    rw [h]
    exact ⟨⟨[], by simp⟩, fun w3 h3 => by simp at h3, fun _ => rfl⟩
  · rename_i w1 h
    rw [h]
    obtain ⟨l, hl, -⟩ := issueLoop_names env rest template privateKey w1
    exact ⟨⟨l, hl⟩, fun w3 h3 => by simp only [Prod.mk.injEq, true_and] at h3; rw [h3],
      fun hne => absurd rfl hne⟩
  · rename_i code w1 h
    rw [h]
    exact ⟨⟨[], by simp⟩, fun w3 h3 => by simp at h3, fun _ => rfl⟩
  · rename_i w1 h
    rw [h]
    exact ⟨⟨[], by simp⟩, fun w3 h3 => by simp at h3, fun _ => rfl⟩

theorem generateLoop_reach (env : Env) (done : List Certificate) (certConfig : Certificate)
    (rest : List Certificate) (w w2 : World) (h : rootsDone env done w = some w2) :
    GenerateCertificates.loop env (done ++ certConfig :: rest) w =
      GenerateCertificates.loop env (certConfig :: rest) w2 := by
  induction done generalizing w with
  | nil =>
    simp only [rootsDone, Option.some.injEq] at h
    rw [h]; rfl
  | cons c cs ih =>
    rw [rootsDone] at h
    rw [List.cons_append, GenerateCertificates.loop]
    split at h
    · rename_i w1 hc
      rw [hc]
      exact ih w1 h
    · simp at h

theorem generateLoop_not_reached (env : Env) (done : List Certificate)
    (later : List Certificate) (w : World) (h : rootsDone env done w = none) :
    GenerateCertificates.loop env (done ++ later) w = GenerateCertificates.loop env done w := by
  induction done generalizing w with
  | nil => simp [rootsDone] at h
  | cons c cs ih =>
    rw [rootsDone] at h
    rw [List.cons_append, GenerateCertificates.loop, GenerateCertificates.loop]
    split at h
    · rename_i w1 hc
      rw [hc]
      exact ih w1 h
    · rename_i hne
      split
      · rfl
      · rename_i w1 hc
        exact absurd hc (hne w1)
      · rfl
      · rfl

theorem generateLoop_at_root (env : Env) (certConfig : Certificate) (rest : List Certificate)
    (w : World) :
    (∃ l, (GenerateCertificates.loop env (certConfig :: rest) w).2.trace =
      (issueCertificate env certConfig none none w).2.trace ++ l) ∧
    (∀ w3, issueCertificate env certConfig none none w = (.returned none, w3) →
      GenerateCertificates.loop env (certConfig :: rest) w =
        GenerateCertificates.loop env rest w3) ∧
    ((issueCertificate env certConfig none none w).1 ≠ .returned none →
      (GenerateCertificates.loop env (certConfig :: rest) w).2 =
        (issueCertificate env certConfig none none w).2) := by
  rw [GenerateCertificates.loop]
  split
  · rename_i err w1 h
    rw [h]
    exact ⟨⟨[], by simp⟩, fun w3 h3 => by simp at h3, fun _ => rfl⟩
  · rename_i w1 h
    rw [h]
    obtain ⟨l, hl, -⟩ := generateLoop_names env rest w1
    exact ⟨⟨l, hl⟩, fun w3 h3 => by simp only [Prod.mk.injEq, true_and] at h3; rw [h3],
      fun hne => absurd rfl hne⟩
  · rename_i code w1 h
    rw [h]
    exact ⟨⟨[], by simp⟩, fun w3 h3 => by simp at h3, fun _ => rfl⟩
  · rename_i w1 h
    rw [h]
    exact ⟨⟨[], by simp⟩, fun w3 h3 => by simp at h3, fun _ => rfl⟩

theorem issueNode_inr_created (env : Env) (config : Certificate)
    (caCert : Option x509Certificate) (caKey : Option PrivateKey) (w w1 : World)
    (template : x509Certificate) (privateKey : RSAPrivateKey)
    (h : issueCertificate.node env config caCert caKey w = .inr (template, privateKey, w1)) :
    ∃ before after, w1.trace = w.trace ++ before ++
      .createCertificate template (caCert.getD template) (some (.rsa privateKey.PublicKey))
        (caKey.getD (.rsa privateKey))
        (x509CreateCertificate template (caCert.getD template)
          (some (.rsa privateKey.PublicKey)) (caKey.getD (.rsa privateKey))) :: after ∧
      issuedNames before = [] ∧ issuedNames after = [] := by
  obtain ⟨expires, -, -, -, -, htr⟩ := issueNode_inr _ _ _ _ _ _ _ _ h
  refine ⟨[.call config caCert caKey,
      .stdout ("Generating certificate for: " ++ config.CommonName ++ "\n")] ++
      keyFileActions privateKey (keyFilename config),
    certFileActions (x509CreateCertificate template (caCert.getD template)
      (some (.rsa privateKey.PublicKey)) (caKey.getD (.rsa privateKey)))
      (certFilename config), ?_, ?_, ?_⟩
  · rw [htr]
    simp only [List.append_assoc, List.singleton_append, List.cons_append, List.nil_append]
  · simp [issuedNames, keyFileActions, Action.names]
  · simp [issuedNames, certFileActions, Action.names]

/-- C2, refuted at the top-level list `[badNode, rootNode]`: the issuance of
the first node returns an error, the loop of `GenerateCertificates` ends
there, and the top-level node `rootNode` is never invoked: `issueCertificate`
is invoked once, for the bad node, and no certificate is created. -/
theorem later_root_is_not_invoked :
    calledNames
        (GenerateCertificates envOK { Certificates := [badNode, rootNode] } World.init).2.trace
        = ["bad.example.com"] ∧
      (rootCalls
        (GenerateCertificates envOK { Certificates := [badNode, rootNode] }
          World.init).2.trace).length = 1 ∧
      issuedNames
        (GenerateCertificates envOK { Certificates := [badNode, rootNode] } World.init).2.trace
        = [] ∧
      writtenPaths
        (GenerateCertificates envOK { Certificates := [badNode, rootNode] } World.init).2.trace
        = ["out/bad.key"] := by
  decide

/-- C2 as amended: for every top-level node the loop of `GenerateCertificates`
reaches, that is when the issuance of each top-level node declared before it
returned nil, `GenerateCertificates` invokes `issueCertificate` for it with
nil issuer certificate and nil issuer key in the state so reached, and goes
on with the nodes declared after it when that invocation returns nil and ends
in the state the invocation left otherwise; when the issuance of an earlier
node did not return nil the node is not invoked, the run being that of the
earlier nodes alone; in a whole run the invocations with nil issuer
certificate and key are made for top-level nodes only, in declared order, and
for all of them when nothing fails; a node that reaches its loop has called
`x509.CreateCertificate` with its own template where the issuer certificate
was nil and the given one otherwise, and, independently, with its own private
key where the issuer key was nil and the given one otherwise; with both nil
the certificate is self-signed: its issuer name is its subject name and it is
signed with the node's own key; in a whole run the subject and issuer names
of the certificates created are, in order, among those expected of the
forest, where a root is paired with its own subject; and however the node
ends, every call of `x509.CreateCertificate` it made was made with the issuer
certificate and key so resolved. -/
theorem roots_are_self_signed (env : Env) (config : Certificate)
    (caCert : Option x509Certificate) (caKey : Option PrivateKey) (w w1 : World)
    (template : x509Certificate) (privateKey : RSAPrivateKey)
    (h : issueCertificate.node env config caCert caKey w = .inr (template, privateKey, w1)) :
    (∀ done rest w0 w2, rootsDone env done w0 = some w2 →
      (∃ l, (issueCertificate env config none none w2).2.trace =
        w2.trace ++ .call config none none :: l) ∧
      (∃ l, (GenerateCertificates env { Certificates := done ++ config :: rest } w0).2.trace =
        (issueCertificate env config none none w2).2.trace ++ l) ∧
      (∀ w3, issueCertificate env config none none w2 = (.returned none, w3) →
        GenerateCertificates env { Certificates := done ++ config :: rest } w0 =
          GenerateCertificates.loop env rest w3) ∧
      ((issueCertificate env config none none w2).1 ≠ .returned none →
        (GenerateCertificates env { Certificates := done ++ config :: rest } w0).2 =
          (issueCertificate env config none none w2).2)) ∧
    (∀ done later w0, rootsDone env done w0 = none →
      GenerateCertificates env { Certificates := done ++ later } w0 =
        GenerateCertificates env { Certificates := done } w0) ∧
    (∀ (configuration : Configuration) w0, ∃ l,
      (GenerateCertificates env configuration w0).2.trace = w0.trace ++ l ∧
      (rootCalls l).Sublist configuration.Certificates ∧
      (env.NeverFails →
        (∀ n ∈ preorderList configuration.Certificates,
          ∃ d, env.parseDuration n.Expires = .ok d) →
        rootCalls l = configuration.Certificates) ∧
      (issuedNames l).Sublist
        (configuration.Certificates.flatMap fun c => chainNames (subjectOf c) c)) ∧
    (∃ before after, w1.trace = w.trace ++ before ++
      .createCertificate template
        (match caCert with
          | none => template
          | some c => c)
        (some (.rsa privateKey.PublicKey))
        (match caKey with
          | none => .rsa privateKey
          | some k => k)
        (x509CreateCertificate template
          (match caCert with
            | none => template
            | some c => c)
          (some (.rsa privateKey.PublicKey))
          (match caKey with
            | none => .rsa privateKey
            | some k => k)) :: after ∧
      issuedNames before = [] ∧ issuedNames after = []) ∧
    (caCert = none → caKey = none →
      ∃ before after cert, w1.trace = w.trace ++ before ++
        .createCertificate template template (some (.rsa privateKey.PublicKey))
          (.rsa privateKey) cert :: after ∧
        cert.Issuer = cert.Subject ∧ cert.Subject = subjectOf config ∧
        cert.SignedWith = .rsa privateKey ∧
        cert.PublicKey = some (.rsa privateKey.PublicKey)) ∧
    (∀ w0, ∃ l,
      (issueCertificate.node.world (issueCertificate.node env config caCert caKey w0)).trace =
        w0.trace ++ .call config caCert caKey :: l ∧
      SignedAsResolved config caCert caKey l) := by
  obtain ⟨before, after, htr, hb, ha⟩ := issueNode_inr_created _ _ _ _ _ _ _ _ h
  have hs := issueNode_inr_Subject _ _ _ _ _ _ _ _ h
  refine ⟨?_, ?_, ?_, ?_, ?_, ?_⟩
  · intro done rest w0 w2 hdone
    have hreach := generateLoop_reach env done config rest w0 w2 hdone
    obtain ⟨hext, hcont, hstop⟩ := generateLoop_at_root env config rest w2
    obtain ⟨l0, h0, -⟩ := issueCertificate_names env config none none w2
    simp only [GenerateCertificates]
    rw [hreach]
    exact ⟨⟨l0, h0⟩, hext, hcont, hstop⟩
  · intro done later w0 hdone
    exact generateLoop_not_reached env done later w0 hdone
  · intro configuration w0
    obtain ⟨l, hl, hsub, heq⟩ := generateLoop_rootCalls env configuration.Certificates w0
    obtain ⟨l', hl', hn⟩ := generateLoop_names env configuration.Certificates w0
    have : l' = l := List.append_cancel_left (hl'.symm.trans hl)
    rw [this] at hn
    exact ⟨l, hl, hsub, heq, hn⟩
  · refine ⟨before, after, ?_, hb, ha⟩
    rw [htr]
    cases caCert <;> cases caKey <;> rfl
  · rintro rfl rfl
    exact ⟨before, after, _, htr, by simp [x509CreateCertificate],
      by simp [x509CreateCertificate, hs], rfl, rfl⟩
  · intro w0
    obtain ⟨l, hl, -, -, -, hsigned⟩ := issueNode_shape env config caCert caKey w0
    exact ⟨l, hl, hsigned⟩

theorem roots_are_self_signed_witness :
    ∃ template privateKey w1 w2,
      issueCertificate.node envOK leafTwo none none World.init
        = .inr (template, privateKey, w1) ∧
      rootsDone envOK [rootNode] World.init = some w2 ∧
      ((∃ l, (issueCertificate envOK leafTwo none none w2).2.trace =
        w2.trace ++ .call leafTwo none none :: l) ∧
      (∃ l, (GenerateCertificates envOK { Certificates := [rootNode] ++ leafTwo :: [] }
          World.init).2.trace =
        (issueCertificate envOK leafTwo none none w2).2.trace ++ l) ∧
      (∀ w3, issueCertificate envOK leafTwo none none w2 = (.returned none, w3) →
        GenerateCertificates envOK { Certificates := [rootNode] ++ leafTwo :: [] } World.init =
          GenerateCertificates.loop envOK [] w3) ∧
      ((issueCertificate envOK leafTwo none none w2).1 ≠ .returned none →
        (GenerateCertificates envOK { Certificates := [rootNode] ++ leafTwo :: [] }
          World.init).2 =
          (issueCertificate envOK leafTwo none none w2).2)) ∧
      ∃ before after cert, w1.trace = World.init.trace ++ before ++
        .createCertificate template template (some (.rsa privateKey.PublicKey))
          (.rsa privateKey) cert :: after ∧
        cert.Issuer = cert.Subject ∧ cert.Subject = subjectOf leafTwo ∧
        cert.SignedWith = .rsa privateKey ∧
        cert.PublicKey = some (.rsa privateKey.PublicKey) :=
  ⟨_, _, _, _, rfl, rfl,
    (roots_are_self_signed envOK leafTwo none none World.init _ _ _ rfl).1
      [rootNode] [] World.init _ rfl,
    (roots_are_self_signed envOK leafTwo none none World.init _ _ _ rfl).2.2.2.2.1 rfl rfl⟩

/-- C1, refuted at a root whose children are `[badNode, leafNode]`: the root
reaches its loop, the issuance of its first child returns an error, the loop
ends there, and the second child is never issued: `issueCertificate` is
invoked for the root and the bad child only, and the only certificate created
is the root's own. -/
theorem later_child_is_not_issued :
    (∃ template privateKey w1,
      issueCertificate.node envOK rootOfBadAndLeaf none none World.init =
        .inr (template, privateKey, w1)) ∧
      calledNames (issueCertificate envOK rootOfBadAndLeaf none none World.init).2.trace
        = ["Root CA", "bad.example.com"] ∧
      issuedNames (issueCertificate envOK rootOfBadAndLeaf none none World.init).2.trace
        = [(subjectOf rootOfBadAndLeaf, subjectOf rootOfBadAndLeaf)] ∧
      writtenPaths (issueCertificate envOK rootOfBadAndLeaf none none World.init).2.trace
        = ["out/root.key", "out/root.crt", "out/bad.key"] :=
  ⟨⟨_, _, _, rfl⟩, by decide, by decide, by decide⟩

/-- C1 as amended: a node that reaches its loop goes through it with its own
template, the one its own certificate was created from, whose `Subject` is
the one built from the node, and its own freshly generated private key, the
one written to its key file; for every child the loop reaches, that is when the
issuance of each child declared before it returned nil, the loop invokes
`issueCertificate` for the child, in the state so reached, with that template
as issuer certificate and that key as issuer key, and goes on with the
children declared after it when that invocation returns nil and ends in the
state the invocation left otherwise; when the issuance of an earlier child
did not return nil the child is not issued, the run being that of the earlier
children alone; a child that
reaches its own loop has called `x509.CreateCertificate` with that template
as parent and that key as signing key, so that the issuer name of its
certificate is the parent's `Subject`, and so was every call of
`x509.CreateCertificate` the child made, however it ends; and throughout the
subtree, the subject and issuer names of the certificates created are, in
order, among those of the nodes below the parent each paired with the subject
of its own parent. -/
theorem children_are_signed_by_parent (env : Env) (config : Certificate)
    (caCert : Option x509Certificate) (caKey : Option PrivateKey) (w w1 : World)
    (template : x509Certificate) (privateKey : RSAPrivateKey)
    (h : issueCertificate.node env config caCert caKey w = .inr (template, privateKey, w1)) :
    template.Subject = subjectOf config ∧
    (∃ after, w1.trace = w.trace ++
      [.call config caCert caKey,
       .stdout ("Generating certificate for: " ++ config.CommonName ++ "\n")] ++
      keyFileActions privateKey (keyFilename config) ++
      .createCertificate template (caCert.getD template) (some (.rsa privateKey.PublicKey))
        (caKey.getD (.rsa privateKey))
        (x509CreateCertificate template (caCert.getD template)
          (some (.rsa privateKey.PublicKey)) (caKey.getD (.rsa privateKey))) :: after) ∧
    issueCertificate env config caCert caKey w =
      issueCertificate.loop env config.Issue template privateKey w1 ∧
    (∀ done child rest w2, config.Issue = done ++ child :: rest →
      childrenDone env done template privateKey w1 = some w2 →
      (∃ l, (issueCertificate env child (some template) (some (.rsa privateKey)) w2).2.trace =
        w2.trace ++ .call child (some template) (some (.rsa privateKey)) :: l) ∧
      (∃ l, (issueCertificate env config caCert caKey w).2.trace =
        (issueCertificate env child (some template) (some (.rsa privateKey)) w2).2.trace ++ l) ∧
      (∀ w3, issueCertificate env child (some template) (some (.rsa privateKey)) w2 =
          (.returned none, w3) →
        issueCertificate env config caCert caKey w =
          issueCertificate.loop env rest template privateKey w3) ∧
      ((issueCertificate env child (some template) (some (.rsa privateKey)) w2).1 ≠
          .returned none →
        (issueCertificate env config caCert caKey w).2 =
          (issueCertificate env child (some template) (some (.rsa privateKey)) w2).2)) ∧
    (∀ done later, config.Issue = done ++ later →
      childrenDone env done template privateKey w1 = none →
      issueCertificate env config caCert caKey w =
        issueCertificate.loop env done template privateKey w1) ∧
    (∀ child rest w2, ∃ l,
      (issueCertificate.loop env (child :: rest) template privateKey w2).2.trace =
        w2.trace ++ .call child (some template) (some (.rsa privateKey)) :: l) ∧
    (∀ child w2 w3 childTemplate childKey,
      issueCertificate.node env child (some template) (some (.rsa privateKey)) w2 =
        .inr (childTemplate, childKey, w3) →
      ∃ before after cert, w3.trace = w2.trace ++ before ++
        .createCertificate childTemplate template (some (.rsa childKey.PublicKey))
          (.rsa privateKey) cert :: after ∧
        cert.Issuer = subjectOf config ∧ cert.Subject = subjectOf child ∧
        cert.SignedWith = .rsa privateKey) ∧
    (∀ child w2, ∃ l,
      (issueCertificate.node.world (issueCertificate.node env child (some template)
        (some (.rsa privateKey)) w2)).trace =
        w2.trace ++ .call child (some template) (some (.rsa privateKey)) :: l ∧
      ∀ childTemplate parent pub priv cert,
        Action.createCertificate childTemplate parent pub priv cert ∈ l →
        parent = template ∧ priv = .rsa privateKey ∧ cert.Issuer = subjectOf config ∧
          cert.Subject = subjectOf child ∧ cert.SignedWith = .rsa privateKey) ∧
    ∃ l, (issueCertificate env config caCert caKey w).2.trace = w1.trace ++ l ∧
      (issuedNames l).Sublist (chainNamesList (subjectOf config) config.Issue) := by
  have hs := issueNode_inr_Subject _ _ _ _ _ _ _ _ h
  have heq : issueCertificate env config caCert caKey w =
      issueCertificate.loop env config.Issue template privateKey w1 := by
    rw [issueCertificate_eq, h]
  refine ⟨hs, ?_, heq, ?_, ?_, ?_, ?_, ?_, ?_⟩
  · obtain ⟨expires, -, -, -, -, htr⟩ := issueNode_inr _ _ _ _ _ _ _ _ h
    exact ⟨certFileActions (x509CreateCertificate template (caCert.getD template)
      (some (.rsa privateKey.PublicKey)) (caKey.getD (.rsa privateKey))) (certFilename config),
      by rw [htr]; simp only [List.append_assoc, List.singleton_append]⟩
  · intro done child rest w2 hissue hdone
    have hreach := issueLoop_reach env done child rest template privateKey w1 w2 hdone
    obtain ⟨hext, hcont, hstop⟩ := issueLoop_at_child env child rest template privateKey w2
    obtain ⟨l0, h0, -⟩ := issueCertificate_names env child (some template)
      (some (.rsa privateKey)) w2
    rw [heq, hissue, hreach]
    exact ⟨⟨l0, h0⟩, hext, hcont, hstop⟩
  · intro done later hissue hdone
    rw [heq, hissue]
    exact issueLoop_not_reached env done later template privateKey w1 hdone
  · intro child rest w2
    exact issueLoop_first_call env child rest template privateKey w2
  · intro child w2 w3 childTemplate childKey hc
    obtain ⟨before, after, htr, -, -⟩ := issueNode_inr_created _ _ _ _ _ _ _ _ hc
    have hcs := issueNode_inr_Subject _ _ _ _ _ _ _ _ hc
    exact ⟨before, after, _, htr, by simp [x509CreateCertificate, hs],
      by simp [x509CreateCertificate, hcs], rfl⟩
  · intro child w2
    obtain ⟨l, hl, -, -, -, hsigned⟩ := issueNode_shape env child (some template)
      (some (.rsa privateKey)) w2
    refine ⟨l, hl, ?_⟩
    intro childTemplate parent pub priv cert hmem
    obtain ⟨hsub, hparent, ⟨childKey, -, hpriv⟩, hcert⟩ := hsigned _ _ _ _ _ hmem
    simp only at hparent hpriv
    subst hparent hpriv hcert
    exact ⟨rfl, rfl, by simp [x509CreateCertificate, hs],
      by simp [x509CreateCertificate, hsub], rfl⟩
  · obtain ⟨l, hl, hn⟩ := issueLoop_names env config.Issue template privateKey w1
    rw [hs] at hn
    exact ⟨l, by rw [heq, hl], hn⟩

theorem children_are_signed_by_parent_witness :
    ∃ template privateKey w1 w2,
      issueCertificate.node envOK rootOfTwo none none World.init
        = .inr (template, privateKey, w1) ∧
      childrenDone envOK [leafNode] template privateKey w1 = some w2 ∧
      template.Subject = subjectOf rootOfTwo ∧
      ((∃ l, (issueCertificate envOK leafTwo (some template) (some (.rsa privateKey))
          w2).2.trace =
        w2.trace ++ .call leafTwo (some template) (some (.rsa privateKey)) :: l) ∧
      (∃ l, (issueCertificate envOK rootOfTwo none none World.init).2.trace =
        (issueCertificate envOK leafTwo (some template) (some (.rsa privateKey))
          w2).2.trace ++ l) ∧
      (∀ w3, issueCertificate envOK leafTwo (some template) (some (.rsa privateKey)) w2 =
          (.returned none, w3) →
        issueCertificate envOK rootOfTwo none none World.init =
          issueCertificate.loop envOK [] template privateKey w3) ∧
      ((issueCertificate envOK leafTwo (some template) (some (.rsa privateKey)) w2).1 ≠
          .returned none →
        (issueCertificate envOK rootOfTwo none none World.init).2 =
          (issueCertificate envOK leafTwo (some template) (some (.rsa privateKey)) w2).2)) ∧
      ∃ l, (issueCertificate envOK rootOfTwo none none World.init).2.trace = w1.trace ++ l ∧
        (issuedNames l).Sublist (chainNamesList (subjectOf rootOfTwo) rootOfTwo.Issue) :=
  ⟨_, _, _, _, rfl, rfl,
    (children_are_signed_by_parent envOK rootOfTwo none none World.init _ _ _ rfl).1,
    (children_are_signed_by_parent envOK rootOfTwo none none World.init _ _ _ rfl).2.2.2.1
      [leafNode] leafTwo [] _ rfl rfl,
    (children_are_signed_by_parent envOK rootOfTwo none none World.init _ _ _ rfl).2.2.2.2.2.2.2.2⟩

theorem issueNode_parse_error (env : Env) (nf : env.NeverFails)
    (config : Certificate) (err : Error)
    (hexp : env.parseDuration config.Expires = .error err)
    (caCert : Option x509Certificate) (caKey : Option PrivateKey) (w : World) :
    ∃ w1, issueCertificate.node env config caCert caKey w = .inl (.returned (some err), w1) ∧
      marks w1.trace = marks w.trace ++ [.issue config, .keyWritten (keyFilename config)] := by
  unfold issueCertificate.node
  dsimp only
  obtain ⟨k, hk⟩ := nf.rsaGenerateKey ((w.log (.call config caCert caKey)).log
    (.stdout ("Generating certificate for: " ++ config.CommonName ++ "\n"))).tick
  rw [hk]
  dsimp only
  obtain ⟨w2, hw2⟩ := savePrivateKey_rsa_neverFails env nf k (keyFilename config)
    ((w.log (.call config caCert caKey)).log
      (.stdout ("Generating certificate for: " ++ config.CommonName ++ "\n"))).skip
  obtain ⟨htr, -⟩ := savePrivateKey_rsa_ok _ _ _ _ _ hw2
  rw [hw2]
  dsimp only
  rw [hexp]
  refine ⟨w2, rfl, ?_⟩
  rw [htr]
  simp [World.log, World.skip, marks, keyFileActions, Action.mark]

theorem issueCertificate_parse_error (env : Env) (nf : env.NeverFails)
    (config : Certificate) (err : Error)
    (hexp : env.parseDuration config.Expires = .error err)
    (caCert : Option x509Certificate) (caKey : Option PrivateKey) (w : World) :
    ∃ w1, issueCertificate env config caCert caKey w = (.returned (some err), w1) ∧
      marks w1.trace = marks w.trace ++ [.issue config, .keyWritten (keyFilename config)] := by
  obtain ⟨w1, h1, hm⟩ := issueNode_parse_error env nf config err hexp caCert caKey w
  exact ⟨w1, by rw [issueCertificate_eq, h1], hm⟩

theorem generateLoop_stops (env : Env) (nf : env.NeverFails)
    (before : List Certificate) (bad : Certificate) (after : List Certificate) (err : Error)
    (hbad : env.parseDuration bad.Expires = .error err)
    (hp : ∀ n ∈ preorderList before, ∃ d, env.parseDuration n.Expires = .ok d) (w : World) :
    ∃ out w1, GenerateCertificates.loop env (before ++ bad :: after) w = (.returned out, w1) ∧
      marks w1.trace = marks w.trace ++ (preorderList before).flatMap nodeMarks ++
        [.issue bad, .keyWritten (keyFilename bad)] := by
  induction before generalizing w with
  | nil =>
    obtain ⟨w1, h1, hm⟩ := issueCertificate_parse_error env nf bad err hbad none none w
    refine ⟨none, w1, ?_, ?_⟩
    · rw [List.nil_append, GenerateCertificates.loop, h1]
    · rw [hm]; simp [preorderList]
  | cons c cs ih =>
    obtain ⟨w1, h1, hm1⟩ := issueCertificate_neverFails env nf c none none w
      (fun n hn => hp n (by simp [preorderList, hn]))
    obtain ⟨out, w2, h2, hm2⟩ := ih (fun n hn => hp n (by simp [preorderList, hn])) w1
    refine ⟨out, w2, ?_, ?_⟩
    · rw [List.cons_append, GenerateCertificates.loop, h1]; exact h2
    · rw [hm2, hm1]; simp [preorderList]

theorem issueLoop_stops (env : Env) (nf : env.NeverFails)
    (before : List Certificate) (bad : Certificate) (after : List Certificate) (err : Error)
    (hbad : env.parseDuration bad.Expires = .error err)
    (hp : ∀ n ∈ preorderList before, ∃ d, env.parseDuration n.Expires = .ok d)
    (template : x509Certificate) (privateKey : RSAPrivateKey) (w : World) :
    ∃ out w1, issueCertificate.loop env (before ++ bad :: after) template privateKey w =
        (.returned out, w1) ∧
      marks w1.trace = marks w.trace ++ (preorderList before).flatMap nodeMarks ++
        [.issue bad, .keyWritten (keyFilename bad)] := by
  induction before generalizing w with
  | nil =>
    obtain ⟨w1, h1, hm⟩ := issueCertificate_parse_error env nf bad err hbad (some template)
      (some (.rsa privateKey)) w
    refine ⟨none, w1, ?_, ?_⟩
    · rw [List.nil_append, issueCertificate.loop, h1]
    · rw [hm]; simp [preorderList]
  | cons c cs ih =>
    obtain ⟨w1, h1, hm1⟩ := issueCertificate_neverFails env nf c (some template)
      (some (.rsa privateKey)) w (fun n hn => hp n (by simp [preorderList, hn]))
    obtain ⟨out, w2, h2, hm2⟩ := ih (fun n hn => hp n (by simp [preorderList, hn])) w1
    refine ⟨out, w2, ?_, ?_⟩
    · rw [List.cons_append, issueCertificate.loop, h1]; exact h2
    · rw [hm2, hm1]; simp [preorderList]

/-- C6, refuted at the top-level list `[badNode, leafNode]`: the node with the
malformed `expires` fails with the parse error once its key file is written,
and the sibling declared after it is never issued: `issueCertificate` is
invoked for the bad node only and the only file written is its key. -/
theorem malformed_expires_skips_later_siblings :
    (issueCertificate envOK badNode none none World.init).1 =
        .returned (some ⟨"time: invalid duration not-a-duration"⟩) ∧
      calledNames
        (GenerateCertificates envOK { Certificates := [badNode, leafNode] } World.init).2.trace
        = ["bad.example.com"] ∧
      writtenPaths
        (GenerateCertificates envOK { Certificates := [badNode, leafNode] } World.init).2.trace
        = ["out/bad.key"] ∧
      "out/leaf.crt" ∉ writtenPaths
        (GenerateCertificates envOK { Certificates := [badNode, leafNode] } World.init).2.trace
      := by
  decide

/-- C6 as amended: in a list of sibling nodes (the top-level list or the
`Issue` list of a node) in which one node has an `expires` that
`time.ParseDuration` rejects and nothing else fails, the issuance of that node
returns the parse error after its key file has been written, with no
certificate created or written for it and the process not ended; the siblings
declared before it have been issued with their subtrees; and the loop over
the list returns there, so that no sibling declared after it is issued. -/
theorem malformed_expires_ends_the_loop (env : Env) (nf : env.NeverFails)
    (before : List Certificate) (bad : Certificate) (after : List Certificate) (err : Error)
    (hbad : env.parseDuration bad.Expires = .error err)
    (hp : ∀ n ∈ preorderList before, ∃ d, env.parseDuration n.Expires = .ok d) :
    (∀ caCert caKey w, ∃ w1,
      issueCertificate env bad caCert caKey w = (.returned (some err), w1) ∧
      marks w1.trace = marks w.trace ++ [.issue bad, .keyWritten (keyFilename bad)]) ∧
    (∀ w, ∃ out w1,
      GenerateCertificates env { Certificates := before ++ bad :: after } w =
        (.returned out, w1) ∧
      marks w1.trace = marks w.trace ++ (preorderList before).flatMap nodeMarks ++
        [.issue bad, .keyWritten (keyFilename bad)]) ∧
    (∀ template privateKey w, ∃ out w1,
      issueCertificate.loop env (before ++ bad :: after) template privateKey w =
        (.returned out, w1) ∧
      marks w1.trace = marks w.trace ++ (preorderList before).flatMap nodeMarks ++
        [.issue bad, .keyWritten (keyFilename bad)]) :=
  ⟨fun caCert caKey w => issueCertificate_parse_error env nf bad err hbad caCert caKey w,
   fun w => generateLoop_stops env nf before bad after err hbad hp w,
   fun template privateKey w =>
     issueLoop_stops env nf before bad after err hbad hp template privateKey w⟩

theorem malformed_expires_ends_the_loop_witness :
    ∃ out w1,
      GenerateCertificates envOK { Certificates := [rootNode] ++ badNode :: [leafNode] }
        World.init = (.returned out, w1) ∧
      marks w1.trace = marks World.init.trace ++ (preorderList [rootNode]).flatMap nodeMarks ++
        [.issue badNode, .keyWritten (keyFilename badNode)] :=
  (malformed_expires_ends_the_loop envOK envOK_neverFails [rootNode] badNode [leafNode]
    ⟨"time: invalid duration not-a-duration"⟩ rfl (by
      intro n hn
      simp only [preorderList, rootNode, leafNode, preorder, List.append_nil,
        List.mem_cons, List.mem_singleton, List.not_mem_nil, or_false] at hn
      rcases hn with rfl | rfl
      · exact ⟨_, rfl⟩
      · exact ⟨_, rfl⟩)).2.1 World.init

/-- The model of `path.Clean` passes the table of Go's own test. -/
theorem pathClean_cleanTests : ∀ t ∈ cleanTests, pathClean t.1 = t.2 := by
  decide

theorem splitSlash_noSlash (e : List Char) (he : '/' ∉ e) : splitSlash e = [e] := by
  induction e with
  | nil => rfl
  | cons c cs ih =>
    simp only [List.mem_cons, not_or] at he
    have hc : c ≠ '/' := fun h => he.1 h.symm
    simp [splitSlash, hc, ih he.2]

theorem splitSlash_append (p : List Char) :
    ∃ init last, splitSlash p = init ++ [last] ∧ '/' ∉ last ∧
      ∀ e, '/' ∉ e → splitSlash (p ++ e) = init ++ [last ++ e] := by
  induction p with
  | nil =>
    exact ⟨[], [], rfl, by simp, fun e he => by simpa using splitSlash_noSlash e he⟩
  | cons c cs ih =>
    obtain ⟨init, last, hsplit, hlast, happ⟩ := ih
    by_cases hc : c = '/'
    · refine ⟨[] :: init, last, by simp [splitSlash, hc, hsplit], hlast, ?_⟩
      intro e he
      simp [splitSlash, hc, happ e he]
    · cases init with
      | nil =>
        refine ⟨[], c :: last, by simp [splitSlash, hc, hsplit], ?_, ?_⟩
        · simp only [List.mem_cons, not_or]
          exact ⟨fun h => hc h.symm, hlast⟩
        · intro e he
          simp [splitSlash, hc, happ e he]
      | cons i is =>
        refine ⟨(c :: i) :: is, last, by simp [splitSlash, hc, hsplit], hlast, ?_⟩
        intro e he
        simp [splitSlash, hc, happ e he]

theorem joinSlash_append_singleton (l : List (List Char)) (x : List Char) :
    joinSlash (l ++ [x]) = if l = [] then x else joinSlash l ++ '/' :: x := by
  induction l with
  | nil => simp [joinSlash]
  | cons e es ih =>
    cases es with
    | nil => simp [joinSlash]
    | cons e' es' =>
      simp only [List.cons_append, joinSlash] at ih ⊢
      simp [ih]

theorem cleanStep_long (rooted : Bool) (out : List (List Char)) (e : List Char)
    (he : 3 ≤ e.length) : cleanStep rooted out e = e :: out := by
  unfold cleanStep
  have h1 : e ≠ [] := by rintro rfl; simp at he
  have h2 : e ≠ ['.'] := by rintro rfl; simp at he
  have h3 : e ≠ ['.', '.'] := by rintro rfl; simp at he
  simp [h1, h2, h3]

/-- The cleaned form of a path that ends in an extension: a directory part,
empty or ending in a slash, a base name without a slash, and the extension;
the first two do not depend on the extension. -/
theorem cleanChars_append_ext (p : List Char) :
    ∃ d b, '/' ∉ b ∧ (d = [] ∨ d.getLast? = some '/') ∧
      ∀ ext, ext.head? = some '.' → '/' ∉ ext → 3 ≤ ext.length →
        cleanChars (p ++ ext) = d ++ b ++ ext := by
  obtain ⟨init, last, hsplit, hlast, happ⟩ := splitSlash_append p
  refine ⟨(if p.head? = some '/' then ['/'] else []) ++
    (if (init.foldl (cleanStep (decide (p.head? = some '/'))) []).reverse = [] then []
      else joinSlash (init.foldl (cleanStep (decide (p.head? = some '/'))) []).reverse ++ ['/']),
    last, hlast, ?_, ?_⟩
  · have hlast : ∀ (a b : List Char), b ≠ [] → (a ++ b).getLast? = b.getLast? := by
      intro a b hb
      rw [List.getLast?_append, Option.or_of_isSome]
      cases b with
      | nil => exact absurd rfl hb
      | cons x xs => simp [List.getLast?_cons]
    by_cases hS : (init.foldl (cleanStep (decide (p.head? = some '/'))) []).reverse = []
    · rw [if_pos hS, List.append_nil]
      split_ifs <;> simp
    · right
      rw [if_neg hS, hlast _ _ (by simp), hlast _ _ (by simp)]
      rfl
  · intro ext hhead hslash hlen
    have hne : p ++ ext ≠ [] := by
      intro h
      have : ext = [] := (List.append_eq_nil.mp h).2
      rw [this] at hlen; simp at hlen
    have hrooted : ((p ++ ext).head? = some '/') = (p.head? = some '/') := by
      cases p with
      | nil => simp [hhead]
      | cons c cs => simp
    unfold cleanChars
    rw [if_neg hne]
    simp only [hrooted, happ ext hslash, List.foldl_append, List.foldl_cons, List.foldl_nil]
    rw [cleanStep_long _ _ _ (by simp; omega)]
    simp only [List.reverse_cons, joinSlash_append_singleton]
    by_cases hr : p.head? = some '/' <;> simp only [hr, decide_True, decide_False, if_true,
      if_false] <;> split_ifs <;> simp_all
theorem dirChars_noSlash (x : List Char) (hx : '/' ∉ x) : dirChars x = [] := by
  induction x with
  | nil => rfl
  | cons c cs ih =>
    simp only [List.mem_cons, not_or] at hx
    have hc : c ≠ '/' := fun h => hx.1 h.symm
    simp [dirChars, hx.2, hc]

theorem dirChars_append (d x : List Char) (hx : '/' ∉ x)
    (hd : d = [] ∨ d.getLast? = some '/') : dirChars (d ++ x) = d := by
  induction d with
  | nil => simpa using dirChars_noSlash x hx
  | cons c cs ih =>
    have hd' : (c :: cs).getLast? = some '/' := by
      rcases hd with h | h
      · exact absurd h (by simp)
      · exact h
    cases cs with
    | nil =>
      simp only [List.getLast?_singleton, Option.some.injEq] at hd'
      simp [dirChars, hx, hd']
    | cons c' cs' =>
      rw [List.getLast?_cons_cons] at hd'
      have hmem : '/' ∈ c' :: cs' := List.mem_of_getLast?_eq_some hd'
      have := ih (Or.inr hd')
      rw [List.cons_append, dirChars]
      have hcont : (c' :: cs' ++ x).contains '/' = true := by
        rw [List.contains_iff_exists_mem_beq]
        exact ⟨'/', List.mem_append_left _ hmem, by simp⟩
      rw [if_pos hcont, this]

theorem string_append_ne_empty (s : String) : s ++ ".key" ≠ "" ∧ s ++ ".crt" ≠ "" := by
  constructor <;>
  · intro h
    have := congrArg String.length h
    simp only [String.length_append] at this
    have h4 : ".key".length = 4 ∧ ".crt".length = 4 ∧ "".length = 0 := by decide
    omega

/-- The two paths of a node are a common stem followed by the extension. -/
theorem filenames_split (config : Certificate) :
    ∃ d b : List Char, '/' ∉ b ∧ (d = [] ∨ d.getLast? = some '/') ∧
      keyFilename config = String.mk (d ++ b ++ ['.', 'k', 'e', 'y']) ∧
      certFilename config = String.mk (d ++ b ++ ['.', 'c', 'r', 't']) := by
  have hne := string_append_ne_empty config.FilenamePrefix
  by_cases ha : config.InstallTo = ""
  · obtain ⟨d, b, hb, hd, hclean⟩ := cleanChars_append_ext config.FilenamePrefix.data
    refine ⟨d, b, hb, hd, ?_, ?_⟩
    · simp only [keyFilename, pathJoin, if_pos ha, if_neg hne.1, pathClean, String.data_append]
      rw [hclean ['.', 'k', 'e', 'y'] rfl (by decide) (by decide)]
    · simp only [certFilename, pathJoin, if_pos ha, if_neg hne.2, pathClean, String.data_append]
      rw [hclean ['.', 'c', 'r', 't'] rfl (by decide) (by decide)]
  · obtain ⟨d, b, hb, hd, hclean⟩ :=
      cleanChars_append_ext (config.InstallTo.data ++ '/' :: config.FilenamePrefix.data)
    refine ⟨d, b, hb, hd, ?_, ?_⟩
    · simp only [keyFilename, pathJoin, if_neg ha, if_neg hne.1, pathClean, String.data_append]
      rw [← hclean ['.', 'k', 'e', 'y'] rfl (by decide) (by decide)]
      simp
    · simp only [certFilename, pathJoin, if_neg ha, if_neg hne.2, pathClean, String.data_append]
      rw [← hclean ['.', 'c', 'r', 't'] rfl (by decide) (by decide)]
      simp

/-- C9: a node's private key goes to `path.Join(InstallTo, FilenamePrefix +
".key")` and its certificate to `path.Join(InstallTo, FilenamePrefix +
".crt")`; the two paths are one directory part (empty or ending in a slash)
and one base name without a slash, followed by `.key` and by `.crt`, and
`filepath.Dir` gives the same directory for both; the PEM files that
`issueCertificate` writes for the node itself are the key file and then the
certificate file, or a beginning of that sequence, and both when the node
reaches its loop; in the scenario of the specification the files written
are, in order, `./out/root.key`, `./out/root.crt`, `./out/leaf.key` and
`./out/leaf.crt` in their cleaned form. -/
theorem key_and_certificate_paths (config : Certificate) :
    keyFilename config = pathJoin config.InstallTo (config.FilenamePrefix ++ ".key") ∧
    certFilename config = pathJoin config.InstallTo (config.FilenamePrefix ++ ".crt") ∧
    (∃ dir base : String,
      keyFilename config = dir ++ base ++ ".key" ∧
      certFilename config = dir ++ base ++ ".crt" ∧
      '/' ∉ base.data ∧ (dir = "" ∨ dir.data.getLast? = some '/')) ∧
    filepathDir (keyFilename config) = filepathDir (certFilename config) ∧
    (∀ env caCert caKey w, ∃ l,
      (issueCertificate.node.world (issueCertificate.node env config caCert caKey w)).trace =
        w.trace ++ l ∧
      writtenPaths l <+: [keyFilename config, certFilename config]) ∧
    (∀ env caCert caKey w,
      match issueCertificate.node env config caCert caKey w with
      | .inr (_, _, w1) =>
        writtenPaths w1.trace = writtenPaths w.trace ++ [keyFilename config, certFilename config]
      | .inl _ => True) ∧
    writtenPaths (GenerateCertificates envOK scenario World.init).2.trace =
      ["out/root.key", "out/root.crt", "out/leaf.key", "out/leaf.crt"] ∧
    ["./out/root.key", "./out/root.crt", "./out/leaf.key", "./out/leaf.crt"].map pathClean =
      ["out/root.key", "out/root.crt", "out/leaf.key", "out/leaf.crt"] := by
  obtain ⟨d, b, hb, hd, hkey, hcrt⟩ := filenames_split config
  refine ⟨rfl, rfl, ⟨String.mk d, String.mk b, ?_, ?_, hb, ?_⟩, ?_, ?_, ?_, by decide,
    by decide⟩
  · rw [hkey]; rfl
  · rw [hcrt]; rfl
  · rcases hd with h | h
    · left; rw [h]
    · right; exact h
  · simp only [filepathDir, hkey, hcrt, List.append_assoc]
    rw [dirChars_append d _ (by simp [hb]) hd, dirChars_append d _ (by simp [hb]) hd]
  · intro env caCert caKey w
    obtain ⟨l, hl, -, hw, -⟩ := issueNode_shape env config caCert caKey w
    refine ⟨_, hl, ?_⟩
    simpa [writtenPaths, Action.written] using hw
  · intro env caCert caKey w
    split
    · rename_i template privateKey w1 h
      obtain ⟨expires, -, -, -, -, htr⟩ := issueNode_inr _ _ _ _ _ _ _ _ h
      rw [htr]
      simp [writtenPaths, keyFileActions, certFileActions, Action.written]
    · trivial

end CertGen
